import Mathlib

/-!
# Verification of the bigtable TTL client

A shallow embedding of the TTL-expiry subsystem of the `bigtable` client
library (a convenience wrapper around a column-family store), together with
proofs about its key encoder, cell codec, sweep filter, sweep-job timer,
row-count tracking and retrieve error handling.

Sources embedded here:
* `src/lib/BigtableClient.ts` — the legacy client (sweep loop `runJob`,
  `deleteExpiredData`, `close`, marker keys of the form
  `rowKey#family:column`).
* `src/unnamed/part_000` — the current client (murmur-sharded marker row
  keys `ttl#<shard>#<expiry>`, jittered job start, counter tracking on
  `set`/`multiSet`/`increase`/`decrease`/`delete`/`deleteRow`).

JavaScript semantics are modelled explicitly: machine arithmetic of the
hash is `Nat` with `% 2^32`, JS `||` defaults are explicit functions,
falsy checks are spelled out, and `JSON.parse` failure is an `Option`.
-/

/-- JS string `||`: the left operand unless it is the empty string (falsy). -/
def jsOr (a b : String) : String := if a = "" then b else a

/-- Truncation to 32 bits: the effect of JS `& 0xffffffff` / `>>> 0`
(all bitwise operators in JS reduce their operands mod 2^32). -/
def u32 (n : Nat) : Nat := n % 4294967296

/-- 32-bit left rotation, the JS idiom `(x << r) | (x >>> (32 - r))`
applied to an `x` already reduced mod 2^32. -/
def rotl32 (x r : Nat) : Nat := u32 (x <<< r) ||| (x >>> (32 - r))

/-- Modelled from the spec: the `k1` mixing of 32-bit MurmurHash3
(`murmur.v3` of the external `murmurhash` npm dependency; the dependency's
code is not part of this repository, the spec names "a 32-bit variant of
MurmurHash3").  `k1 = rotl(k1*c1, 15) * c2` with both products mod 2^32. -/
def murmurMixK (k : Nat) : Nat :=
  u32 (rotl32 (u32 (k * 0xcc9e2d51)) 15 * 0x1b873593)

/-- One body step of 32-bit MurmurHash3 on a four-byte block value `k`:
`h = rotl(h ^ mix(k), 13) * 5 + 0xe6546b64` mod 2^32. -/
def murmurStepH (h k : Nat) : Nat :=
  u32 (rotl32 (h ^^^ murmurMixK k) 13 * 5 + 0xe6546b64)

/-- The MurmurHash3 body loop: consume the input four bytes at a time
(little-endian block values), returning the running hash and the remaining
zero to three tail bytes. -/
def murmurBody (h : Nat) : List Nat → Nat × List Nat
  | b0 :: b1 :: b2 :: b3 :: rest =>
      murmurBody (murmurStepH h (b0 ||| (b1 <<< 8) ||| (b2 <<< 16) ||| (b3 <<< 24))) rest
  | rest => (h, rest)

/-- The MurmurHash3 tail: fold the remaining one to three bytes (if any)
into the hash with the same `k1` mixing. -/
def murmurTail (h : Nat) : List Nat → Nat
  | [] => h
  | [b0] => h ^^^ murmurMixK b0
  | [b0, b1] => h ^^^ murmurMixK (b0 ||| (b1 <<< 8))
  | [b0, b1, b2] => h ^^^ murmurMixK (b0 ||| (b1 <<< 8) ||| (b2 <<< 16))
  | _ => h

/-- The MurmurHash3 finalizer (avalanche). -/
def fmix32 (h : Nat) : Nat :=
  let h1 := h ^^^ (h >>> 16)
  let h2 := u32 (h1 * 0x85ebca6b)
  let h3 := h2 ^^^ (h2 >>> 13)
  let h4 := u32 (h3 * 0xc2b2ae35)
  h4 ^^^ (h4 >>> 16)

/-- Modelled from the spec: seeded 32-bit MurmurHash3 over a byte list,
`murmur.v3(key, seed)` of the external `murmurhash` npm dependency. -/
def murmur3 (bytes : List Nat) (seed : Nat) : Nat :=
  let body := murmurBody (u32 seed) bytes
  fmix32 (murmurTail body.1 body.2 ^^^ u32 bytes.length)

/-- The byte values hashed for a string key: JS `charCodeAt(i) & 0xff`
over its characters. -/
def stringBytes (s : String) : List Nat := s.data.map (fun c => c.toNat % 256)

/-- `getTTLRowKey(ttl)` from the current client
(`src/unnamed/part_000`, lines 70-76), with `Date.now()` made an explicit
`now` argument and the instance fields `murmurSeed`/`clusterCount` explicit:
`deleteTimestamp = now + 1000*ttl`,
`salt = murmur.v3(deleteTimestamp.toString(), murmurSeed) % clusterCount`,
result `"ttl#" + salt + "#" + deleteTimestamp`. -/
def getTTLRowKey (now ttl murmurSeed clusterCount : Nat) : String :=
  let deleteTimestamp := now + 1000 * ttl
  let salt := murmur3 (stringBytes (toString deleteTimestamp)) murmurSeed % clusterCount
  "ttl#" ++ toString salt ++ "#" ++ toString deleteTimestamp

/-- The shard (salt) assigned to an expiry timestamp: the seeded hash of its
decimal string, reduced mod the shard count. -/
def ttlShard (expiry seed clusterCount : Nat) : Nat :=
  murmur3 (stringBytes (toString expiry)) seed % clusterCount

/-- JS `String.prototype.split` with a single-character separator, over the
character list: splitting never drops empty segments, and a string without
the separator yields one segment. -/
def splitChar (sep : Char) : List Char → List (List Char)
  | [] => [[]]
  | c :: rest =>
    if c = sep then [] :: splitChar sep rest
    else
      match splitChar sep rest with
      | [] => [[c]]
      | g :: gs => (c :: g) :: gs

/-- JS `s.split(sep)` for a one-character separator. -/
def jsSplit (sep : Char) (s : String) : List String :=
  (splitChar sep s.data).map (fun cs => String.mk cs)

/-- The TTL marker row key written by the legacy client
(`src/lib/BigtableClient.ts`, line 335):
`` `${rowKey}#${this.cfName}:${columnName}` ``. -/
def ttlMarkerKey (cfName rowKey columnName : String) : String :=
  rowKey ++ "#" ++ cfName ++ ":" ++ columnName

/-- The sweep's decomposition of a marker row key
(`src/lib/BigtableClient.ts`, line 73):
`` {key: rowKey.split("#")[0], column: rowKey.split(":")[1]} ``. -/
def markerKeyOwner (k : String) : Option String × Option String :=
  ((jsSplit '#' k).get? 0, (jsSplit ':' k).get? 1)

/-- One scanned marker cell, as produced by the `etl` step of
`deleteExpiredData` (`src/lib/BigtableClient.ts`, lines 53-65): the marker
row key, the stored ttl value in seconds, and the cell's write timestamp in
microseconds (Bigtable cell timestamps; the sweep divides them by 1000).
Numeric fields are `ℚ` since JS numbers divide exactly here. -/
structure MetaCell where
  rowKey : String
  value : ℚ
  timestamp : ℚ
deriving DecidableEq, Repr

/-- One scanned metadata row: its `id` and, when the metadata family holds a
`ttl` column, the `(value, timestamp)` of its first cell. -/
structure MetaRow where
  id : String
  ttlCell : Option (ℚ × ℚ)
deriving DecidableEq, Repr

/-- The `etl` mapping of `deleteExpiredData`: rows without a `ttl` column
yield nothing (and are dropped by the `!!metaCell` filter). -/
def etlMarker (r : MetaRow) : Option MetaCell :=
  match r.ttlCell with
  | none => none
  | some (v, ts) => some { rowKey := r.id, value := v, timestamp := ts }

/-- The sweep filter predicate of `deleteExpiredData`
(`src/lib/BigtableClient.ts`, line 69):
`(metaCell.timestamp / 1000) < (Date.now() - (metaCell.value * 1000))`,
with `Date.now()` an explicit `now` in milliseconds. -/
def markerExpired (now : ℚ) (m : MetaCell) : Bool :=
  decide (m.timestamp / 1000 < now - m.value * 1000)

/-- The filtering step of the sweep: scanned rows through `etl`, dropping
rows without markers, keeping only expired markers. -/
def filterExpiredMarkers (now : ℚ) (rows : List MetaRow) : List MetaCell :=
  (rows.filterMap etlMarker).filter (markerExpired now)

/-- State of the legacy sweep scheduler (`runJob`/`close`,
`src/lib/BigtableClient.ts` lines 35-49 and 564-568): whether a
`setTimeout` is pending (`this.tov` armed and not yet fired or cleared),
whether a `deleteExpiredData` cycle is currently in flight, and how many
cycles have started. -/
structure JobState where
  pendingTimer : Bool
  midFlight : Bool
  cyclesStarted : Nat
deriving DecidableEq, Repr

/-- Events of the sweep scheduler: the pending timer fires (starting a
cycle), an in-flight cycle completes (its `.then`/`.catch` handler calls
`runJob()`, arming a new timer), or `close()` is called
(`clearTimeout(this.tov)`, which only cancels a not-yet-fired timer). -/
inductive JobEvent where
  | timerFires
  | cycleCompletes
  | closeCall
deriving DecidableEq, Repr

/-- One transition of the sweep scheduler. A fired timer is consumed and
starts a cycle; a completing cycle re-arms the timer via `runJob()`
unconditionally (the source keeps no closed flag); `close()` merely clears
any pending timer. -/
def stepJob (s : JobState) : JobEvent → JobState
  | .timerFires =>
    if s.pendingTimer then
      { pendingTimer := false, midFlight := true, cyclesStarted := s.cyclesStarted + 1 }
    else s
  | .cycleCompletes =>
    if s.midFlight then
      { pendingTimer := true, midFlight := false, cyclesStarted := s.cyclesStarted }
    else s
  | .closeCall => { s with pendingTimer := false }

/-- Run the sweep scheduler over a sequence of events. -/
def stepsJob (s : JobState) (es : List JobEvent) : JobState :=
  es.foldl stepJob s

/-! ## Cell codec

The sanitization applied by `insert` (both clients, identical code:
`src/unnamed/part_000` lines 83-112, `src/lib/BigtableClient.ts` lines
104-128) and the parse applied on retrieval (`getParsedValue`).  JS values
are modelled by `JSVal`; JSON numbers are modelled at integer granularity
(the values the claims exercise are integers, and the store serializes
numbers through their decimal text). -/

/-- The character `\x7b` (left curly brace). -/
def lbraceChar : Char := Char.ofNat 123

/-- The character `\x7d` (right curly brace). -/
def rbraceChar : Char := Char.ofNat 125

/-- A JavaScript value as it can appear as a cell value: primitives,
arrays and plain objects (fields in insertion order). -/
inductive JSVal where
  | null
  | undef
  | bool (b : Bool)
  | num (n : Int)
  | str (s : String)
  | arr (elems : List JSVal)
  | obj (fields : List (String × JSVal))
deriving Repr

/-- JS truthiness of a value: `null`, `undefined`, `false`, `0` and `""`
are falsy, everything else (including `[]` and an empty object) is truthy. -/
def JSVal.truthy : JSVal → Bool
  | .null => false
  | .undef => false
  | .bool b => b
  | .num n => n != 0
  | .str s => s ≠ ""
  | .arr _ => true
  | .obj _ => true

/-- Whether a value is exactly `undefined`. -/
def JSVal.isUndef : JSVal → Bool
  | .undef => true
  | _ => false

/-- JS `typeof value === "object"`: true for `null`, arrays and objects. -/
def JSVal.isObjectType : JSVal → Bool
  | .null => true
  | .arr _ => true
  | .obj _ => true
  | _ => false

/-- Decimal digit characters of `n`, most significant first, with an
explicit recursion budget (a number never has more digits than its value,
so a budget of `n` suffices and keeps the recursion structural). -/
def natDigitsFuel : Nat → Nat → List Char → List Char
  | 0, _, acc => acc
  | fuel + 1, n, acc =>
    if n = 0 then acc
    else natDigitsFuel fuel (n / 10) (Char.ofNat (48 + n % 10) :: acc)

/-- The decimal representation of a natural number. -/
def natDigits (n : Nat) : List Char :=
  if n = 0 then ['0'] else natDigitsFuel n n []

/-- JS `String(n)` for an integer-valued number. -/
def intChars (n : Int) : List Char :=
  if n < 0 then '-' :: natDigits (-n).toNat else natDigits n.toNat

/-- Lower-case hexadecimal digit character. -/
def hexCharOf (n : Nat) : Char :=
  if n < 10 then Char.ofNat (48 + n) else Char.ofNat (87 + n)

/-- `JSON.stringify` escaping of one string character: quote and backslash
are backslash-escaped, the control characters with short forms use them,
remaining control characters become `\u00xx`. -/
def escapeJSONChar (c : Char) : List Char :=
  if c = '"' then ['\\', '"']
  else if c = '\\' then ['\\', '\\']
  else if c = Char.ofNat 8 then ['\\', 'b']
  else if c = Char.ofNat 9 then ['\\', 't']
  else if c = Char.ofNat 10 then ['\\', 'n']
  else if c = Char.ofNat 12 then ['\\', 'f']
  else if c = Char.ofNat 13 then ['\\', 'r']
  else if c.toNat < 32 then
    let hi := hexCharOf (c.toNat / 16)
    let lo := hexCharOf (c.toNat % 16)
    '\\' :: 'u' :: '0' :: '0' :: [hi, lo]
  else [c]

/-- A JSON string literal: the escaped characters between double quotes. -/
def quoteChars (cs : List Char) : List Char :=
  '"' :: (cs.map escapeJSONChar).flatten ++ ['"']

mutual
/-- `JSON.stringify`, producing the character list: no added whitespace,
`undefined` prints as `null` in array positions and object fields holding
`undefined` are omitted, exactly as in JS. -/
def jchars : JSVal → List Char
  | .null => "null".data
  | .undef => "null".data
  | .bool true => "true".data
  | .bool false => "false".data
  | .num n => intChars n
  | .str s => quoteChars s.data
  | .arr xs => '[' :: arrBody xs
  | .obj fs => lbraceChar :: objBody fs
termination_by structural v => v

/-- Array elements and closing bracket, starting at the first element. -/
def arrBody : List JSVal → List Char
  | [] => [']']
  | x :: rest => jchars x ++ arrSep rest
termination_by structural l => l

/-- Array elements and closing bracket, each preceded by a comma. -/
def arrSep : List JSVal → List Char
  | [] => [']']
  | x :: rest => ',' :: jchars x ++ arrSep rest
termination_by structural l => l

/-- Object fields and closing brace, starting at the first printed field;
fields holding `undefined` are skipped. -/
def objBody : List (String × JSVal) → List Char
  | [] => [rbraceChar]
  | (k, v) :: rest =>
    if v.isUndef then objBody rest
    else quoteChars k.data ++ ':' :: jchars v ++ objSep rest
termination_by structural l => l

/-- Object fields and closing brace, each preceded by a comma; fields
holding `undefined` are skipped. -/
def objSep : List (String × JSVal) → List Char
  | [] => [rbraceChar]
  | (k, v) :: rest =>
    if v.isUndef then objSep rest
    else ',' :: quoteChars k.data ++ ':' :: jchars v ++ objSep rest
termination_by structural l => l
end

/-- `JSON.stringify(v)` as a string. -/
def jsonStringify (v : JSVal) : String := String.mk (jchars v)

mutual
/-- Whether a value contains `undefined` nowhere (JSON-representable
values never do: `undefined` is not part of JSON). -/
def noUndef : JSVal → Bool
  | .undef => false
  | .arr xs => noUndefItems xs
  | .obj fs => noUndefFields fs
  | _ => true
termination_by structural v => v

/-- `noUndef` over array elements. -/
def noUndefItems : List JSVal → Bool
  | [] => true
  | x :: rest => noUndef x && noUndefItems rest
termination_by structural l => l

/-- `noUndef` over object fields. -/
def noUndefFields : List (String × JSVal) → Bool
  | [] => true
  | (_, v) :: rest => noUndef v && noUndefFields rest
termination_by structural l => l
end

/-- JSON whitespace. -/
def isWsChar (c : Char) : Bool := c = ' ' || c = '\t' || c = '\n' || c = '\r'

/-- Drop leading JSON whitespace. -/
def skipWs : List Char → List Char
  | [] => []
  | c :: rest => if isWsChar c then skipWs rest else c :: rest

/-- Prepend a parsed character to a string-body parse result. -/
def pushChar (c : Char) : Option (List Char × List Char) → Option (List Char × List Char)
  | none => none
  | some (cs, r) => some (c :: cs, r)

/-- Value of a hexadecimal digit character (code points of `0-9`, `a-f`,
`A-F`). -/
def hexVal (c : Char) : Option Nat :=
  if 48 ≤ c.toNat ∧ c.toNat ≤ 57 then some (c.toNat - 48)
  else if 97 ≤ c.toNat ∧ c.toNat ≤ 102 then some (c.toNat - 87)
  else if 65 ≤ c.toNat ∧ c.toNat ≤ 70 then some (c.toNat - 55)
  else none

mutual
/-- Parse the body of a JSON string literal (after the opening quote) up to
its closing quote, unescaping; unescaped control characters are invalid. -/
def parseStringBody : List Char → Option (List Char × List Char)
  | [] => none
  | c :: rest =>
    if c = '"' then some ([], rest)
    else if c = '\\' then parseEscape rest
    else if c.toNat < 32 then none
    else pushChar c (parseStringBody rest)

/-- Parse one JSON escape sequence (after the backslash) and continue with
the string body. -/
def parseEscape : List Char → Option (List Char × List Char)
  | [] => none
  | e :: rest =>
    if e = '"' then pushChar '"' (parseStringBody rest)
    else if e = '\\' then pushChar '\\' (parseStringBody rest)
    else if e = '/' then pushChar '/' (parseStringBody rest)
    else if e = 'b' then pushChar (Char.ofNat 8) (parseStringBody rest)
    else if e = 'f' then pushChar (Char.ofNat 12) (parseStringBody rest)
    else if e = 'n' then pushChar (Char.ofNat 10) (parseStringBody rest)
    else if e = 'r' then pushChar (Char.ofNat 13) (parseStringBody rest)
    else if e = 't' then pushChar (Char.ofNat 9) (parseStringBody rest)
    else if e = 'u' then
      match rest with
      | h1 :: h2 :: h3 :: h4 :: r2 =>
        match hexVal h1, hexVal h2, hexVal h3, hexVal h4 with
        | some a, some b, some c, some d =>
          pushChar (Char.ofNat (((a * 16 + b) * 16 + c) * 16 + d)) (parseStringBody r2)
        | _, _, _, _ => none
      | _ => none
    else none
end

/-- Value of a decimal digit character (code points 48 to 57). -/
def digitVal (c : Char) : Option Nat :=
  if 48 ≤ c.toNat ∧ c.toNat ≤ 57 then some (c.toNat - 48) else none

/-- Consume a run of decimal digits, folding them onto `acc`. -/
def parseDigits (acc : Nat) : List Char → Nat × List Char
  | [] => (acc, [])
  | c :: rest =>
    match digitVal c with
    | some d => parseDigits (acc * 10 + d) rest
    | none => (acc, c :: rest)

/-- Parse an unsigned JSON integer: `0`, or a nonzero leading digit
followed by any digits (JSON forbids leading zeros). -/
def parseNat : List Char → Option (Nat × List Char)
  | [] => none
  | c :: rest =>
    if c = '0' then some (0, rest)
    else
      match digitVal c with
      | some d => some (parseDigits d rest)
      | none => none

mutual
/-- Parse one JSON value (numbers at integer granularity), with a recursion
budget; the budget only bounds nesting and element counts and is amply
covered by the input length. -/
def parseJSONValue : Nat → List Char → Option (JSVal × List Char)
  | 0, _ => none
  | _ + 1, [] => none
  | fuel + 1, c :: rest =>
    if c = 'n' then
      match rest with
      | 'u' :: 'l' :: 'l' :: r => some (.null, r)
      | _ => none
    else if c = 't' then
      match rest with
      | 'r' :: 'u' :: 'e' :: r => some (.bool true, r)
      | _ => none
    else if c = 'f' then
      match rest with
      | 'a' :: 'l' :: 's' :: 'e' :: r => some (.bool false, r)
      | _ => none
    else if c = '"' then
      match parseStringBody rest with
      | some (cs, r) => some (.str (String.mk cs), r)
      | none => none
    else if c = '-' then
      match parseNat rest with
      | some (n, r) => some (.num (-(n : Int)), r)
      | none => none
    else if c = '[' then
      match skipWs rest with
      | [] => none
      | c2 :: r2 =>
        if c2 = ']' then some (.arr [], r2)
        else
          match parseJSONValue fuel (c2 :: r2) with
          | some (v, r3) => parseArrayRest fuel [v] (skipWs r3)
          | none => none
    else if c = lbraceChar then
      match skipWs rest with
      | [] => none
      | c2 :: r2 =>
        if c2 = rbraceChar then some (.obj [], r2)
        else if c2 = '"' then
          match parseStringBody r2 with
          | some (key, r3) =>
            match skipWs r3 with
            | ':' :: r4 =>
              match parseJSONValue fuel (skipWs r4) with
              | some (v, r5) => parseObjRest fuel [(String.mk key, v)] (skipWs r5)
              | none => none
            | _ => none
          | none => none
        else none
    else
      match parseNat (c :: rest) with
      | some (n, r) => some (.num (n : Int), r)
      | none => none

/-- After the first array element: a comma and another element, or the
closing bracket. -/
def parseArrayRest : Nat → List JSVal → List Char → Option (JSVal × List Char)
  | 0, _, _ => none
  | _ + 1, _, [] => none
  | fuel + 1, acc, c :: rest =>
    if c = ']' then some (.arr acc, rest)
    else if c = ',' then
      match parseJSONValue fuel (skipWs rest) with
      | some (v, r) => parseArrayRest fuel (acc ++ [v]) (skipWs r)
      | none => none
    else none

/-- After the first object field: a comma and another `"key": value` pair,
or the closing brace. -/
def parseObjRest : Nat → List (String × JSVal) → List Char → Option (JSVal × List Char)
  | 0, _, _ => none
  | _ + 1, _, [] => none
  | fuel + 1, acc, c :: rest =>
    if c = rbraceChar then some (.obj acc, rest)
    else if c = ',' then
      match skipWs rest with
      | '"' :: r2 =>
        match parseStringBody r2 with
        | some (key, r3) =>
          match skipWs r3 with
          | ':' :: r4 =>
            match parseJSONValue fuel (skipWs r4) with
            | some (v, r5) => parseObjRest fuel (acc ++ [(String.mk key, v)]) (skipWs r5)
            | none => none
          | _ => none
        | none => none
      | _ => none
    else none
end

/-- `JSON.parse`: leading and trailing whitespace allowed, anything else
after the value is an error; `none` models the thrown `SyntaxError`. -/
def jsonParse (s : String) : Option JSVal :=
  match parseJSONValue (s.length + 1) (skipWs s.data) with
  | some (v, rest) => if (skipWs rest).isEmpty then some v else none
  | none => none

/-- `getParsedValue` (both clients): `JSON.parse` the stored string,
returning the input unchanged if parsing throws. -/
def getParsedValue (value : String) : JSVal :=
  match jsonParse value with
  | some v => v
  | none => .str value

/-- The per-value sanitization of `insert` (both clients):
`(value && typeof value === "object") ? JSON.stringify(value) : value`,
then `cleanedData[key] = sanitizedValue || ""`. -/
def sanitizeValue (v : JSVal) : JSVal :=
  let sanitizedValue := if v.truthy && v.isObjectType then JSVal.str (jsonStringify v) else v
  if sanitizedValue.truthy then sanitizedValue else .str ""

/-- The stored textual form of a sanitized scalar, as the store hands it
back to `getParsedValue` on retrieval (cell values are bytes; numbers and
booleans are serialized through their JS string form). -/
def scalarToString : JSVal → String
  | .str s => s
  | .num n => String.mk (intChars n)
  | .bool true => "true"
  | .bool false => "false"
  | .null => "null"
  | .undef => "undefined"
  | v => jsonStringify v

/-- The full cell codec round trip: sanitize on insert, read the stored
bytes back, parse on retrieval. -/
def decodeEncode (v : JSVal) : JSVal := getParsedValue (scalarToString (sanitizeValue v))

/-- The decimal digits of a natural number, most significant first
(abstract version of `natDigitsFuel`, for proofs: empty for 0). -/
def digitsRep : Nat → List Char
  | 0 => []
  | n + 1 => digitsRep ((n + 1) / 10) ++ [Char.ofNat (48 + (n + 1) % 10)]
decreasing_by exact Nat.div_lt_self (Nat.succ_pos n) (by norm_num)

/-- Whether the input does not begin with a decimal digit (so a digit run
parser stops at it). -/
def noDigitHead : List Char → Bool
  | [] => true
  | c :: _ => (digitVal c).isNone

mutual
/-- Parser budget consumed by one value. -/
def jweight : JSVal → Nat
  | .arr xs => 1 + jweightItems xs
  | .obj fs => 1 + jweightFields fs
  | _ => 1
termination_by structural v => v

/-- Parser budget consumed by the remaining elements of an array. -/
def jweightItems : List JSVal → Nat
  | [] => 0
  | x :: rest => 1 + jweight x + jweightItems rest
termination_by structural l => l

/-- Parser budget consumed by the remaining fields of an object. -/
def jweightFields : List (String × JSVal) → Nat
  | [] => 0
  | (_, v) :: rest => 1 + jweight v + jweightFields rest
termination_by structural l => l
end


/-! ## Generic retrieve

The shared `retrieve` of both clients (`src/unnamed/part_000` lines
136-193, `src/lib/BigtableClient.ts` lines 135-191), with the store's
`row.get` outcome an explicit parameter. -/

/-- JS `message.startsWith(p)`. -/
def jsStartsWith (s p : String) : Bool := p.data.isPrefixOf s.data

/-- One stored cell version: value bytes (as string) and write timestamp
in microseconds. -/
structure CellData where
  value : String
  timestamp : Nat
deriving DecidableEq, Repr

/-- The data shape `retrieve` reads from a fetched row: family →
column → list of cell versions (newest first). -/
abbrev FamilyData := List (String × List (String × List CellData))

/-- Outcome of `await row.get(...)`: a store error with its message, a
falsy result, or the row's data. -/
inductive RowGetOutcome where
  | err (message : String)
  | missing
  | found (fam : FamilyData)
deriving Repr

/-- Errors surfaced by `retrieve`: a re-thrown store error, or the
TypeError raised by reading `.value` of an undefined cell. -/
inductive RetrieveErr where
  | storeError (message : String)
  | typeError
deriving DecidableEq, Repr

/-- Results of `retrieve`: JS `undefined` (early return), `null`, a raw
single-cell value, a complete single cell, or a whole-row mapping (parsed
or complete). -/
inductive RetrieveVal where
  | rNull
  | rUndefined
  | rStr (s : String)
  | rCell (c : CellData)
  | rRow (m : List (String × JSVal))
  | rRowComplete (m : List (String × CellData))
deriving Repr

/-- The `&&` chain
`rowGet[0] && rowGet[0][cfName] && rowGet[0][cfName][columnName] && …[0]`:
its value is the first cell when every link exists, else JS `undefined`. -/
def singleCell (fam : FamilyData) (cfName columnName : String) : Option CellData :=
  match fam.lookup cfName with
  | none => none
  | some cols =>
    match cols.lookup columnName with
    | none => none
    | some cells => cells.head?

/-- The whole-row loop of `retrieve` without `complete`: keep each column
whose first cell exists and has a truthy (non-empty) value, parsed. -/
def rowMapParsed (rowData : List (String × List CellData)) : List (String × JSVal) :=
  rowData.filterMap fun kv =>
    match kv.2.head? with
    | some c => if c.value ≠ "" then some (kv.1, getParsedValue c.value) else none
    | none => none

/-- The whole-row loop of `retrieve` with `complete`: the raw first cells
of columns with truthy values. -/
def rowMapComplete (rowData : List (String × List CellData)) : List (String × CellData) :=
  rowData.filterMap fun kv =>
    match kv.2.head? with
    | some c => if c.value ≠ "" then some (kv.1, c) else none
    | none => none

/-- `retrieve`: early `undefined` on falsy table or rowKey; on a `row.get`
error, re-throw unless the message starts with `"Unknown row"`, in which
case resolve `null`; falsy results resolve `null`; with a truthy column
name return the single cell (raw `.value` unless `complete`, a TypeError
when the cell is absent and `complete` is not set); otherwise build the
row mapping. -/
def retrieve (hasTable : Bool) (defaultColumn cfName rowKey : String)
    (column : Option String) (complete : Bool) (outcome : RowGetOutcome) :
    Except RetrieveErr RetrieveVal :=
  if !hasTable || rowKey = "" then .ok .rUndefined
  else
    let columnName : Option String :=
      match column with
      | none => none
      | some c => if c = "" then none else some (jsOr c defaultColumn)
    match outcome with
    | .err message =>
      if !(jsStartsWith message "Unknown row") then .error (.storeError message)
      else .ok .rNull
    | .missing => .ok .rNull
    | .found fam =>
      match columnName with
      | some colName =>
        match singleCell fam cfName colName, complete with
        | some c, true => .ok (.rCell c)
        | some c, false => .ok (.rStr c.value)
        | none, true => .ok .rUndefined
        | none, false => .error .typeError
      | none =>
        let rowData :=
          match fam.lookup cfName with
          | some rd => rd
          | none => []
        .ok (if complete then .rRowComplete (rowMapComplete rowData) else .rRow (rowMapParsed rowData))

/-- The public `get` (both clients): undefined for a falsy rowKey, else
`retrieve` with `column || defaultColumn || ""` as the column. -/
def getOp (hasTable : Bool) (defaultColumn cfName rowKey column : String)
    (outcome : RowGetOutcome) : Except RetrieveErr RetrieveVal :=
  if rowKey = "" then .ok .rUndefined
  else retrieve hasTable defaultColumn cfName rowKey
    (some (jsOr column (jsOr defaultColumn ""))) false outcome

/-! ## Foreground writes and the live-row counter

A trace model of the client's mutating operations: each operation maps a
store state to the new state and the list of store effects it dispatches,
in dispatch order (promise-creation order of the source; `await` points
sequence the surrounding effects). -/

/-- Store effects dispatched by client operations. -/
inductive StoreAction where
  | insertPrimary (rowKey : String)
  | insertMetadata (rowKey : String)
  | incrementCounts (delta : Int)
  | existsCheck (rowKey : String) (result : Bool)
  | incrementPrimary (rowKey : String) (column : String) (delta : Int)
  | deleteCells (rowKey : String) (column : String)
  | deleteRow (rowKey : String)
deriving DecidableEq, Repr

/-- Rows of the primary table (row key → columns currently holding a cell)
and the value of the metadata counter cell `counts:counts`. -/
structure ClientState where
  rows : List (String × List String)
  counts : Int
deriving DecidableEq, Repr

/-- Whether a row with at least one cell is present in a row table. -/
def rowExistsIn (rows : List (String × List String)) (k : String) : Bool :=
  match rows.lookup k with
  | some cols => !cols.isEmpty
  | none => false

/-- Bigtable `row.exists()`: a row exists while at least one of its cells
does. -/
def rowExists (s : ClientState) (k : String) : Bool :=
  rowExistsIn s.rows k

/-- Merge newly written columns into a row's column set. -/
def addCols (oldCols newCols : List String) : List String :=
  oldCols ++ newCols.filter (fun c => !oldCols.contains c)

/-- Apply an insert of the given columns to the row table. -/
def updateRows : List (String × List String) → String → List String → List (String × List String)
  | [], k, cols => [(k, cols)]
  | (k2, cs) :: rest, k, cols =>
    if k2 = k then (k2, addCols cs cols) :: rest
    else (k2, cs) :: updateRows rest k cols

/-- Apply `row.deleteCells([family:column])` to the row table. -/
def removeColFromRows : List (String × List String) → String → String → List (String × List String)
  | [], _, _ => []
  | (k2, cs) :: rest, k, c =>
    if k2 = k then (k2, cs.filter (fun c2 => c2 ≠ c)) :: rest
    else (k2, cs) :: removeColFromRows rest k c

/-- Apply `row.delete()` to the row table. -/
def removeRow : List (String × List String) → String → List (String × List String)
  | [], _ => []
  | (k2, cs) :: rest, k => if k2 = k then rest else (k2, cs) :: removeRow rest k

/-- Ambient client configuration and clock for the trace model. -/
structure ClientConfig where
  defaultColumn : String
  cfName : String
  now : Nat
  murmurSeed : Nat
  clusterCount : Nat
deriving DecidableEq, Repr

/-- `set` of the current client (`src/unnamed/part_000` lines 380-416):
the TTL marker insert (if any) is dispatched first, then the row existence
check is awaited, the counter increment is dispatched when the row was
absent, and the primary insert is dispatched last.  `ttl = 0` models both
an absent and a zero `ttl` (both falsy), `column = ""` an absent column. -/
def setV2 (cfg : ClientConfig) (s : ClientState) (rowKey : String)
    (ttl : Nat) (column : String) : ClientState × List StoreAction :=
  let columnName := if column = "" then cfg.defaultColumn else column
  let ttlActs : List StoreAction :=
    if ttl ≠ 0 then [.insertMetadata (getTTLRowKey cfg.now ttl cfg.murmurSeed cfg.clusterCount)]
    else []
  let existed := rowExists s rowKey
  let countActs : List StoreAction := if existed then [] else [.incrementCounts 1]
  let s1 := if existed then s else { s with counts := s.counts + 1 }
  let s2 := { s1 with rows := updateRows s1.rows rowKey [columnName] }
  (s2, ttlActs ++ StoreAction.existsCheck rowKey existed :: countActs ++ [.insertPrimary rowKey])

/-- `multiSet` of the current client (`src/unnamed/part_000` lines
465-503): no-ops on an empty column object; otherwise like `setV2` with
one marker row carrying a qualifier per column. -/
def multiSetV2 (cfg : ClientConfig) (s : ClientState) (rowKey : String)
    (columns : List String) (ttl : Nat) : ClientState × List StoreAction :=
  if columns.isEmpty then (s, [])
  else
    let ttlActs : List StoreAction :=
      if ttl ≠ 0 then [.insertMetadata (getTTLRowKey cfg.now ttl cfg.murmurSeed cfg.clusterCount)]
      else []
    let existed := rowExists s rowKey
    let countActs : List StoreAction := if existed then [] else [.incrementCounts 1]
    let s1 := if existed then s else { s with counts := s.counts + 1 }
    let s2 := { s1 with rows := updateRows s1.rows rowKey columns }
    (s2, ttlActs ++ StoreAction.existsCheck rowKey existed :: countActs ++ [.insertPrimary rowKey])

/-- `increase` of the current client (`src/unnamed/part_000` lines
540-579): no-op on a falsy rowKey; marker insert first (if any), then the
existence check, the conditional counter increment, and last the primary
`row.increment(+1)` (which creates the cell when absent). -/
def increaseV2 (cfg : ClientConfig) (s : ClientState) (rowKey column : String)
    (ttl : Nat) : ClientState × List StoreAction :=
  if rowKey = "" then (s, [])
  else
    let columnName := jsOr column (jsOr cfg.defaultColumn "")
    let ttlActs : List StoreAction :=
      if ttl ≠ 0 then [.insertMetadata (getTTLRowKey cfg.now ttl cfg.murmurSeed cfg.clusterCount)]
      else []
    let existed := rowExists s rowKey
    let countActs : List StoreAction := if existed then [] else [.incrementCounts 1]
    let s1 := if existed then s else { s with counts := s.counts + 1 }
    let s2 := { s1 with rows := updateRows s1.rows rowKey [columnName] }
    (s2, ttlActs ++ StoreAction.existsCheck rowKey existed :: countActs
          ++ [.incrementPrimary rowKey columnName 1])

/-- `decrease` of the current client (`src/unnamed/part_000` lines
587-626): identical to `increase` but the primary increment is `-1`; the
counter increment on a previously absent row is still `+1`. -/
def decreaseV2 (cfg : ClientConfig) (s : ClientState) (rowKey column : String)
    (ttl : Nat) : ClientState × List StoreAction :=
  if rowKey = "" then (s, [])
  else
    let columnName := jsOr column (jsOr cfg.defaultColumn "")
    let ttlActs : List StoreAction :=
      if ttl ≠ 0 then [.insertMetadata (getTTLRowKey cfg.now ttl cfg.murmurSeed cfg.clusterCount)]
      else []
    let existed := rowExists s rowKey
    let countActs : List StoreAction := if existed then [] else [.incrementCounts 1]
    let s1 := if existed then s else { s with counts := s.counts + 1 }
    let s2 := { s1 with rows := updateRows s1.rows rowKey [columnName] }
    (s2, ttlActs ++ StoreAction.existsCheck rowKey existed :: countActs
          ++ [.incrementPrimary rowKey columnName (-1)])

/-- `set` of the legacy client (`src/lib/BigtableClient.ts` lines
328-355): the primary insert promise is created first, so the primary
write is dispatched before the existence check runs; the model lets the
store complete that insert before serving the check (an admissible
schedule of the source's concurrency).  The marker insert (last) uses the
legacy `rowKey#family:column` marker key. -/
def setV1 (cfg : ClientConfig) (s : ClientState) (rowKey : String)
    (ttl : Nat) (column : String) : ClientState × List StoreAction :=
  let columnName := if column = "" then cfg.defaultColumn else column
  let s1 := { s with rows := updateRows s.rows rowKey [columnName] }
  let existed := rowExists s1 rowKey
  let countActs : List StoreAction := if existed then [] else [.incrementCounts 1]
  let s2 := if existed then s1 else { s1 with counts := s1.counts + 1 }
  let ttlActs : List StoreAction :=
    if ttl ≠ 0 then [.insertMetadata (ttlMarkerKey cfg.cfName rowKey columnName)] else []
  (s2, StoreAction.insertPrimary rowKey :: StoreAction.existsCheck rowKey existed ::
        countActs ++ ttlActs)

/-- `delete` (identical in both clients): no-op on a falsy rowKey;
`row.deleteCells` is awaited, then the row existence is checked, and the
counter is decremented only when the row no longer exists. -/
def deleteOp (cfg : ClientConfig) (s : ClientState) (rowKey column : String) :
    ClientState × List StoreAction :=
  if rowKey = "" then (s, [])
  else
    let columnName := jsOr column (jsOr cfg.defaultColumn "")
    let s1 := { s with rows := removeColFromRows s.rows rowKey columnName }
    let existed := rowExists s1 rowKey
    if existed then
      (s1, [.deleteCells rowKey columnName, .existsCheck rowKey true])
    else
      ({ s1 with counts := s1.counts - 1 },
       [.deleteCells rowKey columnName, .existsCheck rowKey false, .incrementCounts (-1)])

/-- `deleteRow` (identical in both clients): no-op on a falsy rowKey;
otherwise `Promise.all` of the unconditional counter decrement and the row
delete, dispatched together in that array order, with no existence
check. -/
def deleteRowOp (s : ClientState) (rowKey : String) : ClientState × List StoreAction :=
  if rowKey = "" then (s, [])
  else
    ({ rows := removeRow s.rows rowKey, counts := s.counts - 1 },
     [.incrementCounts (-1), .deleteRow rowKey])

/-- The public `count()`: retrieves the metadata counter cell, which the
state model stores in the `counts` field. -/
def countV2 (s : ClientState) : Int := s.counts

/-- Primary-table writes among store actions. -/
def isPrimaryWrite : StoreAction → Bool
  | .insertPrimary _ => true
  | .incrementPrimary _ _ _ => true
  | _ => false

/-- Existence checks among store actions. -/
def isExistsCheck : StoreAction → Bool
  | .existsCheck _ _ => true
  | _ => false

/-- The trace performs an existence check strictly before its first
primary-table write (false when either is missing). -/
def checksBeforePrimary : List StoreAction → Bool
  | [] => false
  | a :: rest =>
    if isExistsCheck a then rest.any isPrimaryWrite
    else if isPrimaryWrite a then false
    else checksBeforePrimary rest

/-- Scan of a trace: every counter decrement must be preceded by some
delete action and by an existence check that observed the row absent. -/
def decrementsGatedFrom : Bool → Bool → List StoreAction → Bool
  | _, _, [] => true
  | seenDelete, seenVanish, a :: rest =>
    match a with
    | .incrementCounts d =>
      if d < 0 && !(seenDelete && seenVanish) then false
      else decrementsGatedFrom seenDelete seenVanish rest
    | .deleteCells _ _ => decrementsGatedFrom true seenVanish rest
    | .deleteRow _ => decrementsGatedFrom true seenVanish rest
    | .existsCheck _ res => decrementsGatedFrom seenDelete (seenVanish || !res) rest
    | _ => decrementsGatedFrom seenDelete seenVanish rest

/-- Every counter decrement of the trace comes after a delete and after an
existence check observing absence. -/
def decrementsGated (tr : List StoreAction) : Bool := decrementsGatedFrom false false tr

/-! ## C7: "Unknown row" resolves to null -/

/-- C7: at the shared `retrieve` (and its delegate `get`), a store error
whose message starts with `"Unknown row"` resolves to null rather than
surfacing as an exception, while a store error with any other message is
re-thrown unchanged. -/
theorem retrieve_unknown_row (hasTable : Bool) (defaultColumn cfName rowKey col : String)
    (column : Option String) (complete : Bool) (message : String)
    (ht : hasTable = true) (hk : rowKey ≠ "") :
    (jsStartsWith message "Unknown row" = true →
      retrieve hasTable defaultColumn cfName rowKey column complete (.err message) = .ok .rNull
      ∧ getOp hasTable defaultColumn cfName rowKey col (.err message) = .ok .rNull)
    ∧ (jsStartsWith message "Unknown row" = false →
      retrieve hasTable defaultColumn cfName rowKey column complete (.err message)
          = .error (.storeError message)
      ∧ getOp hasTable defaultColumn cfName rowKey col (.err message)
          = .error (.storeError message)) := by
  subst ht
  have hkk : ¬(rowKey = "") := hk
  constructor <;> intro hmsg <;>
    exact ⟨by simp [retrieve, hkk, hmsg], by simp [retrieve, getOp, hkk, hmsg]⟩

/-- Witness for `retrieve_unknown_row`: the message `"Unknown row: k1"`
resolves to null, the message `"boom"` is re-thrown. -/
theorem retrieve_unknown_row_witness :
    ("k1" ≠ "")
    ∧ jsStartsWith "Unknown row: k1" "Unknown row" = true
    ∧ retrieve true "value" "default" "k1" (some "value") false (.err "Unknown row: k1")
        = .ok .rNull
    ∧ jsStartsWith "boom" "Unknown row" = false
    ∧ retrieve true "value" "default" "k1" (some "value") false (.err "boom")
        = .error (.storeError "boom") := by
  have h1 := retrieve_unknown_row true "value" "default" "k1" "value" (some "value") false
    "Unknown row: k1" rfl (by decide)
  have h2 := retrieve_unknown_row true "value" "default" "k1" "value" (some "value") false
    "boom" rfl (by decide)
  exact ⟨by decide, by decide, (h1.1 (by decide)).1, by decide, (h2.2 (by decide)).1⟩

/-! ## C9: missing column with an existing row throws -/

/-- C9: when the fetched row exists but holds no cell under the requested
column, `retrieve` with a truthy column and without `complete` throws the
TypeError of reading `.value` on an undefined cell, instead of returning
null or undefined. -/
theorem retrieve_missing_column_typeError (hasTable : Bool)
    (defaultColumn cfName rowKey colName : String) (fam : FamilyData)
    (ht : hasTable = true) (hk : rowKey ≠ "") (hc : colName ≠ "")
    (hmiss : singleCell fam cfName colName = none) :
    retrieve hasTable defaultColumn cfName rowKey (some colName) false (.found fam)
      = .error .typeError := by
  subst ht
  have hkk : ¬(rowKey = "") := hk
  have hcc : ¬(colName = "") := hc
  have hor : jsOr colName defaultColumn = colName := by simp [jsOr, hcc]
  simp [retrieve, hkk, hcc, hor, hmiss]

/-- Witness for `retrieve_missing_column_typeError`: a row holding only
the column `"other"`, asked for column `"name"`, raises the TypeError. -/
theorem retrieve_missing_column_typeError_witness :
    ("user1" ≠ "") ∧ ("name" ≠ "")
    ∧ singleCell [("default", [("other", [{ value := "x", timestamp := 5 }])])] "default" "name"
        = none
    ∧ retrieve true "value" "default" "user1" (some "name") false
        (.found [("default", [("other", [{ value := "x", timestamp := 5 }])])])
        = .error .typeError :=
  ⟨by decide, by decide, by decide,
    retrieve_missing_column_typeError true "value" "default" "user1" "name"
      [("default", [("other", [{ value := "x", timestamp := 5 }])])]
      rfl (by decide) (by decide) (by decide)⟩

/-! ## C8: marker key decomposition inverts construction -/

/-- Splitting a list that does not contain the separator yields the single
segment. -/
theorem splitChar_no_sep {sep : Char} : ∀ {a : List Char}, sep ∉ a → splitChar sep a = [a]
  | [], _ => rfl
  | c :: rest, h => by
    have hc : ¬(c = sep) := fun e => h (e ▸ List.mem_cons_self c rest)
    have hr : sep ∉ rest := fun e => h (List.mem_cons_of_mem _ e)
    simp [splitChar, hc, splitChar_no_sep hr]

/-- Splitting a concatenation whose first part is separator-free peels off
that part as the first segment. -/
theorem splitChar_append_sep {sep : Char} :
    ∀ {a : List Char} (b : List Char), sep ∉ a →
      splitChar sep (a ++ sep :: b) = a :: splitChar sep b
  | [], b, _ => by simp [splitChar]
  | c :: rest, b, h => by
    have hc : ¬(c = sep) := fun e => h (e ▸ List.mem_cons_self c rest)
    have hr : sep ∉ rest := fun e => h (List.mem_cons_of_mem _ e)
    have ih := splitChar_append_sep (a := rest) b hr
    simp [splitChar, hc, ih]

/-- C8: the sweep's decomposition of the legacy marker key
`rowKey#family:column` — `split("#")[0]` for the owning row key and
`split(":")[1]` for the owning column — returns exactly the owning row key
and owning column name, provided the row key and column name contain
neither delimiter character and the family name contains no colon. -/
theorem markerKeyOwner_inverts (cfName rowKey columnName : String)
    (h1 : '#' ∉ rowKey.data) (h2 : ':' ∉ rowKey.data) (h3 : ':' ∉ cfName.data)
    (h4 : '#' ∉ columnName.data) (h5 : ':' ∉ columnName.data) :
    markerKeyOwner (ttlMarkerKey cfName rowKey columnName) =
      (some rowKey, some columnName) := by
  have hdata : (ttlMarkerKey cfName rowKey columnName).data
      = rowKey.data ++ '#' :: (cfName.data ++ ':' :: columnName.data) := by
    simp [ttlMarkerKey, String.data_append]
  have hhash : splitChar '#' (ttlMarkerKey cfName rowKey columnName).data
      = rowKey.data :: splitChar '#' (cfName.data ++ ':' :: columnName.data) := by
    rw [hdata]
    exact splitChar_append_sep _ h1
  have hcolonFree : ':' ∉ rowKey.data ++ '#' :: cfName.data := by
    intro hmem
    rcases List.mem_append.mp hmem with hmem | hmem
    · exact h2 hmem
    · rcases List.mem_cons.mp hmem with hmem | hmem
      · exact absurd hmem (by decide)
      · exact h3 hmem
  have hcolon : splitChar ':' (ttlMarkerKey cfName rowKey columnName).data
      = (rowKey.data ++ '#' :: cfName.data) :: [columnName.data] := by
    have : (ttlMarkerKey cfName rowKey columnName).data
        = (rowKey.data ++ '#' :: cfName.data) ++ ':' :: columnName.data := by
      rw [hdata]; simp
    rw [this, splitChar_append_sep _ hcolonFree, splitChar_no_sep h5]
  simp [markerKeyOwner, jsSplit, hhash, hcolon]

/-- Witness for `markerKeyOwner_inverts`: the marker key written for row
`"user1"`, family `"default"`, column `"name"` decomposes back to
`("user1", "name")`. -/
theorem markerKeyOwner_inverts_witness :
    ('#' ∉ "user1".data) ∧ (':' ∉ "user1".data) ∧ (':' ∉ "default".data)
    ∧ ('#' ∉ "name".data) ∧ (':' ∉ "name".data)
    ∧ ttlMarkerKey "default" "user1" "name" = "user1#default:name"
    ∧ markerKeyOwner (ttlMarkerKey "default" "user1" "name") = (some "user1", some "name") :=
  ⟨by decide, by decide, by decide, by decide, by decide, by decide,
    markerKeyOwner_inverts "default" "user1" "name"
      (by decide) (by decide) (by decide) (by decide) (by decide)⟩

/-! ## C1: the sweep's expiry filter -/

/-- C1 counterexample: a marker written at timestamp 0 with a one-second
TTL, examined at `now = 1000` ms, satisfies the claim's boundary condition
`tsMs + ttl·1000 ≤ now` with equality, yet the sweep's strict `<`
comparison classifies it as not expired and keeps it for the next cycle,
so "expired if and only if ... less than or equal" fails. -/
theorem markerExpired_boundary :
    ((0 : ℚ) / 1000 + 1 * 1000 ≤ 1000)
    ∧ markerExpired 1000 { rowKey := "m", value := 1, timestamp := 0 } = false
    ∧ filterExpiredMarkers 1000 [{ id := "m", ttlCell := some (1, 0) }] = [] := by
  have hb : markerExpired 1000 { rowKey := "m", value := 1, timestamp := 0 } = false := by
    rw [markerExpired, decide_eq_false_iff_not]
    norm_num
  refine ⟨by norm_num, hb, ?_⟩
  simp [filterExpiredMarkers, etlMarker, hb]

/-- C1 (amended): the sweep's filtering step keeps exactly the scanned
markers whose write timestamp in milliseconds (microsecond cell timestamp
over 1000) plus the stored TTL seconds times 1000 is strictly less than
the current time; every other marker is left out of this cycle's
deletions. -/
theorem filterExpired_spec (now : ℚ) (rows : List MetaRow) (m : MetaCell) :
    m ∈ filterExpiredMarkers now rows ↔
      (∃ r ∈ rows, etlMarker r = some m) ∧ m.timestamp / 1000 + m.value * 1000 < now := by
  simp only [filterExpiredMarkers, List.mem_filter, List.mem_filterMap, markerExpired,
    decide_eq_true_eq]
  constructor
  · rintro ⟨⟨r, hr, he⟩, hlt⟩
    exact ⟨⟨r, hr, he⟩, by linarith⟩
  · rintro ⟨⟨r, hr, he⟩, hlt⟩
    exact ⟨⟨r, hr, he⟩, by linarith⟩

/-! ## C5: the counter on row deletion -/

/-- C5 counterexample: `deleteRow` on an existing row dispatches the
counter decrement as the first action — listed before the row delete, with
no post-deletion existence check anywhere in its trace — so the decrement
is neither performed after the delete nor conditional on the row having
vanished. -/
theorem deleteRow_decrement_ungated :
    (deleteRowOp { rows := [("user1", ["value"])], counts := 1 } "user1").2
      = [.incrementCounts (-1), .deleteRow "user1"]
    ∧ decrementsGated (deleteRowOp { rows := [("user1", ["value"])], counts := 1 } "user1").2
        = false :=
  ⟨rfl, rfl⟩

/-- C5 (amended): `delete` decrements after the cell delete and only when
the post-deletion existence check observes the row gone — its trace always
satisfies the delete-then-vanish gating, and it contains a decrement
exactly when the row no longer exists after the delete — while `deleteRow`
dispatches an unconditional decrement listed before the row delete, with
no existence check. -/
theorem rowDeletion_counter_spec (cfg : ClientConfig) (s : ClientState)
    (rowKey column : String) (hk : rowKey ≠ "") :
    decrementsGated (deleteOp cfg s rowKey column).2 = true
    ∧ (StoreAction.incrementCounts (-1) ∈ (deleteOp cfg s rowKey column).2 ↔
        rowExists (deleteOp cfg s rowKey column).1 rowKey = false)
    ∧ (deleteRowOp s rowKey).2 = [.incrementCounts (-1), .deleteRow rowKey] := by
  have hkk : ¬(rowKey = "") := hk
  cases h : rowExistsIn (removeColFromRows s.rows rowKey (jsOr column (jsOr cfg.defaultColumn "")))
      rowKey <;>
    simp [deleteOp, deleteRowOp, hkk, h, decrementsGated, decrementsGatedFrom, rowExists]

/-- Witness for `rowDeletion_counter_spec`: deleting the only cell of row
`"user1"` leaves the row gone, the trace is gated, and `deleteRow`
dispatches its unconditional decrement first. -/
theorem rowDeletion_counter_spec_witness :
    ("user1" ≠ "")
    ∧ decrementsGated (deleteOp
        { defaultColumn := "value", cfName := "default", now := 0, murmurSeed := 1, clusterCount := 3 }
        { rows := [("user1", ["value"])], counts := 1 } "user1" "").2 = true
    ∧ (deleteRowOp { rows := [("user1", ["value"])], counts := 1 } "user1").2
        = [.incrementCounts (-1), .deleteRow "user1"] := by
  have h := rowDeletion_counter_spec
    { defaultColumn := "value", cfName := "default", now := 0, murmurSeed := 1, clusterCount := 3 }
    { rows := [("user1", ["value"])], counts := 1 } "user1" "" (by decide)
  exact ⟨by decide, h.1, h.2.2⟩

/-! ## C6: the counter on row creation -/

/-- C6 counterexample: the legacy client's `set` on a brand-new row
creates the primary-insert promise first, so the primary write is
dispatched before the existence check; once that insert lands, the check
reports the row as existing and no `+1` counter increment is issued for
the brand-new row. -/
theorem setV1_dispatches_before_check :
    (setV1
        { defaultColumn := "value", cfName := "default", now := 0, murmurSeed := 1, clusterCount := 3 }
        { rows := [], counts := 0 } "user1" 0 "").2
      = [.insertPrimary "user1", .existsCheck "user1" true]
    ∧ checksBeforePrimary (setV1
        { defaultColumn := "value", cfName := "default", now := 0, murmurSeed := 1, clusterCount := 3 }
        { rows := [], counts := 0 } "user1" 0 "").2 = false
    ∧ (setV1
        { defaultColumn := "value", cfName := "default", now := 0, murmurSeed := 1, clusterCount := 3 }
        { rows := [], counts := 0 } "user1" 0 "").1.counts = 0 :=
  ⟨rfl, rfl, rfl⟩

/-- C6 (amended): in the current client, `set`, `multiSet`, `increase` and
`decrease` all await the row-existence check before dispatching the
primary write and issue the `+1` counter increment exactly when the check
reported absence, so a brand-new row raises the counter by exactly one and
`count()` reflects it; the legacy client's `set` instead dispatches the
primary insert before the check. -/
theorem rowCreation_counter_spec (cfg : ClientConfig) (s : ClientState)
    (rowKey column : String) (columns : List String) (ttl : Nat)
    (hk : rowKey ≠ "") (hc : columns ≠ []) :
    (checksBeforePrimary (setV2 cfg s rowKey ttl column).2 = true
      ∧ (StoreAction.incrementCounts 1 ∈ (setV2 cfg s rowKey ttl column).2 ↔
          rowExists s rowKey = false)
      ∧ (rowExists s rowKey = false →
          countV2 (setV2 cfg s rowKey ttl column).1 = countV2 s + 1))
    ∧ (checksBeforePrimary (multiSetV2 cfg s rowKey columns ttl).2 = true
      ∧ (StoreAction.incrementCounts 1 ∈ (multiSetV2 cfg s rowKey columns ttl).2 ↔
          rowExists s rowKey = false)
      ∧ (rowExists s rowKey = false →
          countV2 (multiSetV2 cfg s rowKey columns ttl).1 = countV2 s + 1))
    ∧ (checksBeforePrimary (increaseV2 cfg s rowKey column ttl).2 = true
      ∧ (StoreAction.incrementCounts 1 ∈ (increaseV2 cfg s rowKey column ttl).2 ↔
          rowExists s rowKey = false)
      ∧ (rowExists s rowKey = false →
          countV2 (increaseV2 cfg s rowKey column ttl).1 = countV2 s + 1))
    ∧ (checksBeforePrimary (decreaseV2 cfg s rowKey column ttl).2 = true
      ∧ (StoreAction.incrementCounts 1 ∈ (decreaseV2 cfg s rowKey column ttl).2 ↔
          rowExists s rowKey = false)
      ∧ (rowExists s rowKey = false →
          countV2 (decreaseV2 cfg s rowKey column ttl).1 = countV2 s + 1))
    ∧ (setV1 cfg s rowKey ttl column).2.head? = some (.insertPrimary rowKey) := by
  have hkk : ¬(rowKey = "") := hk
  have hcc : columns.isEmpty = false := by
    cases columns
    · exact absurd rfl hc
    · rfl
  by_cases ht : ttl = 0 <;> cases h : rowExists s rowKey <;>
    simp [setV2, multiSetV2, increaseV2, decreaseV2, setV1, checksBeforePrimary,
      isExistsCheck, isPrimaryWrite, countV2, h, ht, hkk, hcc]

/-- Witness for `rowCreation_counter_spec`: a `set` of a fresh row
`"user1"` with a five-second TTL checks existence before the primary
write and raises the counter from 0 to 1. -/
theorem rowCreation_counter_spec_witness :
    ("user1" ≠ "") ∧ (["name"] ≠ ([] : List String))
    ∧ checksBeforePrimary (setV2
        { defaultColumn := "value", cfName := "default", now := 0, murmurSeed := 1, clusterCount := 3 }
        { rows := [], counts := 0 } "user1" 5 "").2 = true
    ∧ countV2 (setV2
        { defaultColumn := "value", cfName := "default", now := 0, murmurSeed := 1, clusterCount := 3 }
        { rows := [], counts := 0 } "user1" 5 "").1 = countV2 { rows := [], counts := 0 } + 1 := by
  have h := rowCreation_counter_spec
    { defaultColumn := "value", cfName := "default", now := 0, murmurSeed := 1, clusterCount := 3 }
    { rows := [], counts := 0 } "user1" "" ["name"] 5 (by decide) (by decide)
  exact ⟨by decide, by decide, h.1.1, h.1.2.2 rfl⟩

/-- C2: `getTTLRowKey` returns `"ttl#" + shard + "#" + expiry` where
`expiry = now + ttl·1000` and `shard` is the seeded 32-bit murmur hash of
the decimal expiry string reduced mod the shard count; the shard always
lies in `[0, clusterCount)` when the shard count is positive, and the key
(hence the shard) depends only on `(expiry, seed, clusterCount)`. -/
theorem getTTLRowKey_spec (now ttl seed n : Nat) (hn : 0 < n) :
    getTTLRowKey now ttl seed n =
      "ttl#" ++ toString (ttlShard (now + ttl * 1000) seed n) ++ "#"
        ++ toString (now + ttl * 1000)
    ∧ ttlShard (now + ttl * 1000) seed n < n
    ∧ ∀ now2 ttl2 : Nat, now2 + ttl2 * 1000 = now + ttl * 1000 →
        getTTLRowKey now2 ttl2 seed n = getTTLRowKey now ttl seed n := by
  refine ⟨?_, Nat.mod_lt _ hn, ?_⟩
  · simp only [getTTLRowKey, ttlShard]
    rw [show 1000 * ttl = ttl * 1000 from Nat.mul_comm 1000 ttl]
  · intro now2 ttl2 h
    have h2 : now2 + 1000 * ttl2 = now + 1000 * ttl := by omega
    simp only [getTTLRowKey, h2]

/-- Witness for `getTTLRowKey_spec`: with `now = 0`, a 1-second TTL, seed 1
and three shards the encoder produces the key `"ttl#0#1000"` (the murmur
hash of `"1000"` with seed 1 is `3539422164`, which is `0 mod 3`). -/
theorem getTTLRowKey_spec_witness :
    0 < 3
    ∧ getTTLRowKey 0 1 1 3 =
        "ttl#" ++ toString (ttlShard (0 + 1 * 1000) 1 3) ++ "#" ++ toString (0 + 1 * 1000)
    ∧ getTTLRowKey 0 1 1 3 = "ttl#0#1000"
    ∧ murmur3 (stringBytes "1000") 1 = 3539422164 :=
  ⟨by decide, (getTTLRowKey_spec 0 1 1 3 (by decide)).1, by rfl, by rfl⟩

/-! ## C3: closing the sweep job -/

/-- C3 counterexample: start from the state in which the first cycle is
mid-flight (the timer has fired, none is pending).  Calling `close()` and
then letting the in-flight cycle complete re-arms the timer via
`runJob()`, and when that timer fires a second sweep cycle starts — after
`close()` — so "no further sweep cycles ever start" fails. -/
theorem close_reschedules_counterexample :
    stepsJob { pendingTimer := false, midFlight := true, cyclesStarted := 1 }
        [.closeCall, .cycleCompletes, .timerFires]
      = { pendingTimer := false, midFlight := true, cyclesStarted := 2 } := by
  rfl

/-- C3 (amended): `close()` cancels any pending timer and closing twice is
a no-op; when no cycle is mid-flight at close, no later cycle ever starts;
but a cycle that is mid-flight at close re-arms the timer when it
completes, so one more `timerFires` starts a further cycle. -/
theorem close_behavior (s : JobState) (es : List JobEvent) :
    (stepJob s .closeCall).pendingTimer = false
    ∧ stepJob (stepJob s .closeCall) .closeCall = stepJob s .closeCall
    ∧ (s.midFlight = false →
        (stepsJob (stepJob s .closeCall) es).cyclesStarted = s.cyclesStarted)
    ∧ (s.midFlight = true →
        (stepsJob (stepJob s .closeCall) [.cycleCompletes, .timerFires]).cyclesStarted
          = s.cyclesStarted + 1) := by
  obtain ⟨p, m, n⟩ := s
  refine ⟨rfl, rfl, ?_, ?_⟩
  · rintro rfl
    have key : ∀ es2 : List JobEvent, ∀ k : Nat,
        stepsJob { pendingTimer := false, midFlight := false, cyclesStarted := k } es2
          = { pendingTimer := false, midFlight := false, cyclesStarted := k } := by
      intro es2
      induction es2 with
      | nil => intro k; rfl
      | cons e rest ih =>
        intro k
        cases e <;> simpa [stepsJob, stepJob] using ih k
    have h1 : stepJob { pendingTimer := p, midFlight := false, cyclesStarted := n } .closeCall
        = { pendingTimer := false, midFlight := false, cyclesStarted := n } := rfl
    rw [h1, key es n]
  · rintro rfl
    rfl

/-- Witness for `close_behavior`: from a mid-flight state with one started
cycle, closing, completing and firing yields a second started cycle, and
closing twice equals closing once. -/
theorem close_behavior_witness :
    ({ pendingTimer := true, midFlight := true, cyclesStarted := 1 } : JobState).midFlight = true
    ∧ (stepsJob (stepJob { pendingTimer := true, midFlight := true, cyclesStarted := 1 } .closeCall)
        [.cycleCompletes, .timerFires]).cyclesStarted = 1 + 1 :=
  ⟨rfl, (close_behavior { pendingTimer := true, midFlight := true, cyclesStarted := 1 } []).2.2.2 rfl⟩

/-! ## C10: falsy values collapse to the empty string -/

/-- C10: the sanitization of `insert` collapses every falsy value — the
number 0, `false`, the empty string, `null` and `undefined` — to the empty
string, and a cell set to `0` or `false` is read back as `""` rather than
the original value. -/
theorem insert_falsy_collapse :
    sanitizeValue (.num 0) = .str ""
    ∧ sanitizeValue (.bool false) = .str ""
    ∧ sanitizeValue (.str "") = .str ""
    ∧ sanitizeValue .null = .str ""
    ∧ sanitizeValue .undef = .str ""
    ∧ decodeEncode (.num 0) = .str ""
    ∧ decodeEncode (.bool false) = .str "" :=
  ⟨rfl, rfl, rfl, rfl, rfl, rfl, rfl⟩
/-! ## Round-trip helper lemmas -/

/-- Characters are equal when their code points are. -/
theorem char_eq_of_toNat {a b : Char} (h : a.toNat = b.toNat) : a = b :=
  Char.ext (UInt32.ext h)

/-- Characters are distinct when their code points are. -/
theorem char_ne_of_toNat {a b : Char} (h : a.toNat ≠ b.toNat) : a ≠ b :=
  fun e => h (e ▸ rfl)

/-- Code point of `Char.ofNat` below the surrogate range. -/
theorem charOfNat_toNat {n : Nat} (h : n < 55296) : (Char.ofNat n).toNat = n := by
  unfold Char.ofNat
  rw [dif_pos (Or.inl h)]
  rfl

/-- `Char.ofNat` undoes `Char.toNat` below the surrogate range. -/
theorem charOfNat_toNat_eq {c : Char} (h : c.toNat < 55296) : Char.ofNat c.toNat = c :=
  char_eq_of_toNat (charOfNat_toNat h)

/-- Every character code point is a valid scalar value, so in particular
outside the surrogate gap or below it. -/
theorem char_toNat_valid (c : Char) : c.toNat < 55296 ∨ 57343 < c.toNat := by
  have h := c.valid
  rcases h with h | ⟨h1, _⟩
  · exact Or.inl h
  · exact Or.inr h1

/-- Decimal digit characters evaluate to their value. -/
theorem digitVal_ofNat {r : Nat} (h : r < 10) : digitVal (Char.ofNat (48 + r)) = some r := by
  have ht : (Char.ofNat (48 + r)).toNat = 48 + r := charOfNat_toNat (by omega)
  rw [digitVal, ht, if_pos (show 48 ≤ 48 + r ∧ 48 + r ≤ 57 by omega)]
  congr 1
  omega

/-- A character with a digit value lies in the digit code point range. -/
theorem digitVal_some_toNat {c : Char} {r : Nat} (h : digitVal c = some r) :
    c.toNat = 48 + r ∧ r < 10 := by
  rw [digitVal] at h
  split at h
  · next hcond =>
    simp only [Option.some.injEq] at h
    omega
  · exact absurd h (by simp)

/-- Hexadecimal digit characters evaluate to their value. -/
theorem hexVal_hexCharOf {d : Nat} (h : d < 16) : hexVal (hexCharOf d) = some d := by
  by_cases h10 : d < 10
  · have ht : (hexCharOf d).toNat = 48 + d := by
      rw [hexCharOf, if_pos h10]
      exact charOfNat_toNat (by omega)
    rw [hexVal, ht, if_pos (show 48 ≤ 48 + d ∧ 48 + d ≤ 57 by omega)]
    congr 1
    omega
  · have ht : (hexCharOf d).toNat = 87 + d := by
      rw [hexCharOf, if_neg h10]
      exact charOfNat_toNat (by omega)
    rw [hexVal, ht, if_neg (show ¬(48 ≤ 87 + d ∧ 87 + d ≤ 57) by omega),
      if_pos (show 97 ≤ 87 + d ∧ 87 + d ≤ 102 by omega)]
    congr 1
    omega

/-- `pushChar` on a successful parse. -/
theorem pushChar_some (c : Char) (cs r : List Char) :
    pushChar c (some (cs, r)) = some (c :: cs, r) := rfl

/-- Unescaping undoes the `JSON.stringify` escaping, one string body at a
time: parsing the escaped characters followed by a closing quote yields
the original characters. -/
theorem parseStringBody_quote :
    ∀ (cs rest : List Char),
      parseStringBody ((cs.map escapeJSONChar).flatten ++ '"' :: rest) = some (cs, rest) := by
  intro cs
  induction cs with
  | nil =>
    intro rest
    simp [parseStringBody]
  | cons c cs ih =>
    intro rest
    rw [List.map_cons, List.flatten_cons, List.append_assoc]
    by_cases h1 : c = '"'
    · subst h1
      simp only [escapeJSONChar, if_pos rfl]
      simp [parseStringBody, parseEscape, pushChar_some, ih]
    · by_cases h2 : c = '\\'
      · subst h2
        simp only [escapeJSONChar]
        norm_num
        simp [parseStringBody, parseEscape, pushChar_some, ih]
      · by_cases h3 : c = Char.ofNat 8
        · subst h3
          simp only [escapeJSONChar]
          norm_num
          simp [parseStringBody, parseEscape, pushChar_some, ih]
        · by_cases h4 : c = Char.ofNat 9
          · subst h4
            simp only [escapeJSONChar]
            norm_num
            simp [parseStringBody, parseEscape, pushChar_some, ih]
          · by_cases h5 : c = Char.ofNat 10
            · subst h5
              simp only [escapeJSONChar]
              norm_num
              simp [parseStringBody, parseEscape, pushChar_some, ih]
            · by_cases h6 : c = Char.ofNat 12
              · subst h6
                simp only [escapeJSONChar]
                norm_num
                simp [parseStringBody, parseEscape, pushChar_some, ih]
              · by_cases h7 : c = Char.ofNat 13
                · subst h7
                  simp only [escapeJSONChar]
                  norm_num
                  simp [parseStringBody, parseEscape, pushChar_some, ih]
                · by_cases h8 : c.toNat < 32
                  · have hdiv : c.toNat / 16 < 16 := by omega
                    have hmod : c.toNat % 16 < 16 := by omega
                    have hc : Char.ofNat (c.toNat / 16 * 16 + c.toNat % 16) = c := by
                      have hval : c.toNat / 16 * 16 + c.toNat % 16 = c.toNat := by omega
                      rw [hval]
                      exact charOfNat_toNat_eq (by omega)
                    simp only [escapeJSONChar, if_neg h1, if_neg h2, if_neg h3, if_neg h4,
                      if_neg h5, if_neg h6, if_neg h7, if_pos h8]
                    simp only [List.cons_append, List.nil_append]
                    have h00 : hexVal '0' = some 0 := rfl
                    simp [parseStringBody, parseEscape, h00, hexVal_hexCharOf hdiv,
                      hexVal_hexCharOf hmod, pushChar_some, hc, ih]
                  · simp only [escapeJSONChar, if_neg h1, if_neg h2, if_neg h3, if_neg h4,
                      if_neg h5, if_neg h6, if_neg h7, if_neg h8]
                    simp only [List.cons_append, List.nil_append]
                    rw [parseStringBody]
                    simp [h1, h2, h8, pushChar_some, ih]

/-- The fueled digit printer computes `digitsRep` once the budget covers
the number. -/
theorem natDigitsFuel_eq : ∀ (fuel n : Nat) (acc : List Char), n ≤ fuel →
    natDigitsFuel fuel n acc = digitsRep n ++ acc := by
  intro fuel
  induction fuel with
  | zero =>
    intro n acc h
    interval_cases n
    simp [natDigitsFuel, digitsRep]
  | succ fuel ih =>
    intro n acc h
    match n with
    | 0 => simp [natDigitsFuel, digitsRep]
    | m + 1 =>
      rw [natDigitsFuel, if_neg (Nat.succ_ne_zero m), digitsRep]
      rw [ih ((m + 1) / 10) _ (by
        have := Nat.div_lt_self (Nat.succ_pos m) (show 1 < 10 by norm_num)
        omega)]
      simp

/-- `natDigits` prints `digitsRep` for nonzero numbers. -/
theorem natDigits_eq {n : Nat} (h : n ≠ 0) : natDigits n = digitsRep n := by
  rw [natDigits, if_neg h, natDigitsFuel_eq n n [] (Nat.le_refl n)]
  simp

/-- A digit run parser returns its accumulator at a digit-free input. -/
theorem parseDigits_stop (a : Nat) {rest : List Char} (h : noDigitHead rest = true) :
    parseDigits a rest = (a, rest) := by
  match rest with
  | [] => rfl
  | c :: t =>
    have hd : digitVal c = none := by
      simp only [noDigitHead, Option.isNone_iff_eq_none] at h
      exact h
    simp [parseDigits, hd]

/-- Consuming the digits of `n` multiplies the accumulator by the matching
power of ten and adds `n`. -/
theorem parseDigits_digitsRep : ∀ (n a : Nat) (rest : List Char),
    parseDigits a (digitsRep n ++ rest)
      = parseDigits (a * 10 ^ (digitsRep n).length + n) rest := by
  intro n
  induction n using Nat.strong_induction_on with
  | _ n ih =>
    intro a rest
    match n with
    | 0 => simp [digitsRep]
    | m + 1 =>
      have hdivlt : (m + 1) / 10 < m + 1 := Nat.div_lt_self (Nat.succ_pos m) (by norm_num)
      have hd : digitVal (Char.ofNat (48 + (m + 1) % 10)) = some ((m + 1) % 10) :=
        digitVal_ofNat (Nat.mod_lt _ (by norm_num))
      have hstep : ∀ b : Nat, parseDigits b (Char.ofNat (48 + (m + 1) % 10) :: rest)
          = parseDigits (b * 10 + (m + 1) % 10) rest := by
        intro b
        rw [parseDigits, hd]
      conv_lhs => rw [digitsRep]
      rw [List.append_assoc, List.cons_append, List.nil_append, ih _ hdivlt, hstep]
      have harith : (a * 10 ^ (digitsRep ((m + 1) / 10)).length + (m + 1) / 10) * 10 + (m + 1) % 10
          = a * 10 ^ (digitsRep (m + 1)).length + (m + 1) := by
        conv_rhs => rw [digitsRep]
        rw [List.length_append, List.length_singleton, pow_succ]
        have hmod := Nat.div_add_mod (m + 1) 10
        ring_nf
        omega
      rw [harith]

/-- The head of `digitsRep n` for nonzero `n` is a nonzero digit. -/
theorem digitsRep_head : ∀ n : Nat, n ≠ 0 → ∃ r t, 1 ≤ r ∧ r ≤ 9 ∧
    digitsRep n = Char.ofNat (48 + r) :: t := by
  intro n
  induction n using Nat.strong_induction_on with
  | _ n ih =>
    intro h
    match n, h with
    | m + 1, _ =>
      by_cases hlt : (m + 1) / 10 = 0
      · have hsmall : m + 1 < 10 := by omega
        refine ⟨m + 1, [], by omega, by omega, ?_⟩
        rw [digitsRep, hlt, digitsRep]
        simp [Nat.mod_eq_of_lt hsmall]
      · obtain ⟨r, t, hr1, hr9, he⟩ := ih ((m + 1) / 10)
          (Nat.div_lt_self (Nat.succ_pos m) (by norm_num)) hlt
        exact ⟨r, t ++ [Char.ofNat (48 + (m + 1) % 10)], hr1, hr9, by
          rw [digitsRep, he]
          simp⟩

/-- Parsing an unsigned JSON integer undoes decimal printing. -/
theorem parseNat_natDigits (n : Nat) {rest : List Char} (hrest : noDigitHead rest = true) :
    parseNat (natDigits n ++ rest) = some (n, rest) := by
  by_cases h : n = 0
  · subst h
    simp [natDigits, parseNat]
  · rw [natDigits_eq h]
    obtain ⟨r, t, hr1, hr9, he⟩ := digitsRep_head n h
    have hd : digitVal (Char.ofNat (48 + r)) = some r := digitVal_ofNat (by omega)
    have hne0 : ¬(Char.ofNat (48 + r) = '0') := by
      apply char_ne_of_toNat
      rw [charOfNat_toNat (by omega)]
      have h0 : '0'.toNat = 48 := rfl
      omega
    have hfull : parseDigits 0 (digitsRep n ++ rest) = (n, rest) := by
      rw [parseDigits_digitsRep n 0 rest]
      simp [parseDigits_stop n hrest]
    rw [he] at hfull
    rw [List.cons_append] at hfull
    rw [parseDigits, hd] at hfull
    have hfull2 : parseDigits (0 * 10 + r) (t ++ rest) = (n, rest) := hfull
    have hfull3 : parseDigits r (t ++ rest) = (n, rest) := by simpa using hfull2
    rw [he, List.cons_append, parseNat, if_neg hne0, hd]
    show some (parseDigits r (t ++ rest)) = some (n, rest)
    rw [hfull3]

/-- `skipWs` leaves inputs that do not start with whitespace unchanged. -/
theorem skipWs_not_ws {c : Char} (l : List Char) (h : isWsChar c = false) :
    skipWs (c :: l) = c :: l := by
  simp [skipWs, h]

/-- A character other than space, tab, newline and carriage return is not
JSON whitespace. -/
theorem isWsChar_eq_false {c : Char} (h9 : c.toNat ≠ 9) (h10 : c.toNat ≠ 10)
    (h13 : c.toNat ≠ 13) (h32 : c.toNat ≠ 32) : isWsChar c = false := by
  have hsp : (' ' : Char).toNat = 32 := rfl
  have hta : ('\t' : Char).toNat = 9 := rfl
  have hnl : ('\n' : Char).toNat = 10 := rfl
  have hcr : ('\r' : Char).toNat = 13 := rfl
  simp only [isWsChar, Bool.or_eq_false_iff, decide_eq_false_iff_not]
  exact ⟨⟨⟨char_ne_of_toNat (by omega), char_ne_of_toNat (by omega)⟩,
    char_ne_of_toNat (by omega)⟩, char_ne_of_toNat (by omega)⟩

/-- The first character printed for any value: never whitespace and never a
closing bracket. -/
theorem jchars_head_spec : ∀ v : JSVal, ∃ c t, jchars v = c :: t
    ∧ isWsChar c = false ∧ c ≠ ']' := by
  intro v
  match v with
  | .null => exact ⟨'n', _, rfl, rfl, by decide⟩
  | .undef => exact ⟨'n', _, rfl, rfl, by decide⟩
  | .bool true => exact ⟨'t', _, rfl, rfl, by decide⟩
  | .bool false => exact ⟨'f', _, rfl, rfl, by decide⟩
  | .str s => exact ⟨'"', _, rfl, rfl, by decide⟩
  | .arr xs => exact ⟨'[', _, rfl, rfl, by decide⟩
  | .obj fs => exact ⟨lbraceChar, _, rfl, rfl, by decide⟩
  | .num n =>
    show ∃ c t, intChars n = c :: t ∧ isWsChar c = false ∧ c ≠ ']'
    by_cases hneg : n < 0
    · exact ⟨'-', _, by rw [intChars, if_pos hneg], rfl, by decide⟩
    · rw [intChars, if_neg hneg]
      by_cases hz : n.toNat = 0
      · exact ⟨'0', [], by rw [hz]; rfl, rfl, by decide⟩
      · obtain ⟨r, t, hr1, hr9, he⟩ := digitsRep_head n.toNat hz
        have ht : (Char.ofNat (48 + r)).toNat = 48 + r := charOfNat_toNat (by omega)
        have hbr : (']' : Char).toNat = 93 := rfl
        exact ⟨Char.ofNat (48 + r), t, by rw [natDigits_eq hz, he],
          isWsChar_eq_false (by omega) (by omega) (by omega) (by omega),
          char_ne_of_toNat (by omega)⟩

/-- `skipWs` does not touch printed values. -/
theorem skipWs_jchars (v : JSVal) (r : List Char) :
    skipWs (jchars v ++ r) = jchars v ++ r := by
  obtain ⟨c, t, he, hws, -⟩ := jchars_head_spec v
  rw [he, List.cons_append, skipWs_not_ws _ hws]

/-- After an array element the printer emits a comma or the closing
bracket: not whitespace, not a digit. -/
theorem arrSep_skip_noDigit (xs : List JSVal) (r : List Char) :
    skipWs (arrSep xs ++ r) = arrSep xs ++ r ∧ noDigitHead (arrSep xs ++ r) = true := by
  have h1 : isWsChar ']' = false := rfl
  have h2 : isWsChar ',' = false := rfl
  have h3 : digitVal ']' = none := rfl
  have h4 : digitVal ',' = none := rfl
  cases xs with
  | nil => simp [arrSep, skipWs_not_ws _ h1, noDigitHead, h3]
  | cons x rest =>
    rw [arrSep, List.cons_append]
    exact ⟨skipWs_not_ws _ h2, by simp [noDigitHead, h4]⟩

/-- After an object field the printer emits a comma or the closing brace:
not whitespace, not a digit. -/
theorem objSep_skip_noDigit (fs : List (String × JSVal)) (r : List Char) :
    skipWs (objSep fs ++ r) = objSep fs ++ r ∧ noDigitHead (objSep fs ++ r) = true := by
  have h1 : isWsChar rbraceChar = false := rfl
  have h2 : isWsChar ',' = false := rfl
  have h3 : digitVal rbraceChar = none := rfl
  have h4 : digitVal ',' = none := rfl
  induction fs with
  | nil => simp [objSep, skipWs_not_ws _ h1, noDigitHead, h3]
  | cons f rest ih =>
    obtain ⟨k, v⟩ := f
    by_cases hu : v.isUndef
    · simpa [objSep, hu] using ih
    · rw [objSep, if_neg hu, List.cons_append]
      exact ⟨skipWs_not_ws _ h2, by simp [noDigitHead, h4]⟩

/-- Every value consumes at least one unit of budget. -/
theorem jweight_pos : ∀ v : JSVal, 1 ≤ jweight v := by
  intro v
  cases v <;> simp [jweight]

/-- Parser step at a string literal. -/
theorem parseJSONValue_step_quote (fuel : Nat) (l : List Char) :
    parseJSONValue (fuel + 1) ('"' :: l) =
      match parseStringBody l with
      | some (cs, r) => some (.str (String.mk cs), r)
      | none => none := rfl

/-- Parser step at a minus sign. -/
theorem parseJSONValue_step_minus (fuel : Nat) (l : List Char) :
    parseJSONValue (fuel + 1) ('-' :: l) =
      match parseNat l with
      | some (n, r) => some (.num (-(n : Int)), r)
      | none => none := rfl

/-- Parser step at an opening bracket. -/
theorem parseJSONValue_step_bracket (fuel : Nat) (l : List Char) :
    parseJSONValue (fuel + 1) ('[' :: l) =
      match skipWs l with
      | [] => none
      | c2 :: r2 =>
        if c2 = ']' then some (.arr [], r2)
        else
          match parseJSONValue fuel (c2 :: r2) with
          | some (v, r3) => parseArrayRest fuel [v] (skipWs r3)
          | none => none := rfl

/-- Parser step at an opening brace. -/
theorem parseJSONValue_step_lbrace (fuel : Nat) (l : List Char) :
    parseJSONValue (fuel + 1) (lbraceChar :: l) =
      match skipWs l with
      | [] => none
      | c2 :: r2 =>
        if c2 = rbraceChar then some (.obj [], r2)
        else if c2 = '"' then
          match parseStringBody r2 with
          | some (key, r3) =>
            match skipWs r3 with
            | ':' :: r4 =>
              match parseJSONValue fuel (skipWs r4) with
              | some (v, r5) => parseObjRest fuel [(String.mk key, v)] (skipWs r5)
              | none => none
            | _ => none
          | none => none
        else none := rfl

/-- Parser step at a character that opens none of the JSON value forms:
the number fall-through. -/
theorem parseJSONValue_step_digit (fuel : Nat) (c : Char) (l : List Char)
    (hcn : ¬(c = 'n')) (hct : ¬(c = 't')) (hcf : ¬(c = 'f')) (hcq : ¬(c = '"'))
    (hcm : ¬(c = '-')) (hcb : ¬(c = '[')) (hcl : ¬(c = lbraceChar)) :
    parseJSONValue (fuel + 1) (c :: l) =
      match parseNat (c :: l) with
      | some (n, r) => some (.num (n : Int), r)
      | none => none := by
  rw [parseJSONValue.eq_def]
  simp only [if_neg hcn, if_neg hct, if_neg hcf, if_neg hcq, if_neg hcm, if_neg hcb,
    if_neg hcl]

/-- Array-rest step at the closing bracket. -/
theorem parseArrayRest_close (fuel : Nat) (acc : List JSVal) (l : List Char) :
    parseArrayRest (fuel + 1) acc (']' :: l) = some (.arr acc, l) := rfl

/-- Array-rest step at a comma. -/
theorem parseArrayRest_comma (fuel : Nat) (acc : List JSVal) (l : List Char) :
    parseArrayRest (fuel + 1) acc (',' :: l) =
      match parseJSONValue fuel (skipWs l) with
      | some (v, r) => parseArrayRest fuel (acc ++ [v]) (skipWs r)
      | none => none := rfl

/-- Object-rest step at the closing brace. -/
theorem parseObjRest_close (fuel : Nat) (acc : List (String × JSVal)) (l : List Char) :
    parseObjRest (fuel + 1) acc (rbraceChar :: l) = some (.obj acc, l) := rfl

/-- Object-rest step at a comma. -/
theorem parseObjRest_comma (fuel : Nat) (acc : List (String × JSVal)) (l : List Char) :
    parseObjRest (fuel + 1) acc (',' :: l) =
      match skipWs l with
      | '"' :: r2 =>
        match parseStringBody r2 with
        | some (key, r3) =>
          match skipWs r3 with
          | ':' :: r4 =>
            match parseJSONValue fuel (skipWs r4) with
            | some (v, r5) => parseObjRest fuel (acc ++ [(String.mk key, v)]) (skipWs r5)
            | none => none
          | _ => none
        | none => none
      | _ => none := rfl

/-- Rebuilding a string from its characters is the identity. -/
theorem string_mk_data (s : String) : String.mk s.data = s := rfl

/-- A value without `undefined` is not `undefined`. -/
theorem noUndef_isUndef {v : JSVal} (h : noUndef v = true) : v.isUndef = false := by
  cases v <;> first
    | rfl
    | exact absurd h (by simp [noUndef])

mutual
/-- The parser reads back exactly what the printer wrote, for any
`undefined`-free value, any sufficient budget and any non-digit
continuation. -/
theorem parse_jchars (v : JSVal) (fuel : Nat) (rest : List Char)
    (hU : noUndef v = true) (hW : jweight v ≤ fuel) (hR : noDigitHead rest = true) :
    parseJSONValue fuel (jchars v ++ rest) = some (v, rest) := by
  cases fuel with
  | zero => exact absurd hW (by have := jweight_pos v; omega)
  | succ fuel =>
    cases v with
    | null => rfl
    | undef => exact absurd hU (by simp [noUndef])
    | bool b => cases b <;> rfl
    | str s =>
      simp only [jchars, quoteChars, List.cons_append, List.append_assoc,
        List.singleton_append]
      rw [parseJSONValue_step_quote, parseStringBody_quote]
      simp [string_mk_data]
    | num n =>
      by_cases hneg : n < 0
      · have hp := parseNat_natDigits (-n).toNat hR
        have hval : (((-n).toNat : Int)) = -n := Int.toNat_of_nonneg (by omega)
        simp only [jchars, intChars, if_pos hneg, List.cons_append]
        rw [parseJSONValue_step_minus, hp]
        simp [hval]
      · by_cases hz : n.toNat = 0
        · have hn0 : n = 0 := by omega
          subst hn0
          rfl
        · obtain ⟨r, t, hr1, hr9, he⟩ := digitsRep_head n.toNat hz
          have ht : (Char.ofNat (48 + r)).toNat = 48 + r := charOfNat_toNat (by omega)
          have hcn : ¬(Char.ofNat (48 + r) = 'n') := char_ne_of_toNat (by
            have hl : ('n' : Char).toNat = 110 := rfl
            omega)
          have hct : ¬(Char.ofNat (48 + r) = 't') := char_ne_of_toNat (by
            have hl : ('t' : Char).toNat = 116 := rfl
            omega)
          have hcf : ¬(Char.ofNat (48 + r) = 'f') := char_ne_of_toNat (by
            have hl : ('f' : Char).toNat = 102 := rfl
            omega)
          have hcq : ¬(Char.ofNat (48 + r) = '"') := char_ne_of_toNat (by
            have hl : ('"' : Char).toNat = 34 := rfl
            omega)
          have hcm : ¬(Char.ofNat (48 + r) = '-') := char_ne_of_toNat (by
            have hl : ('-' : Char).toNat = 45 := rfl
            omega)
          have hcb : ¬(Char.ofNat (48 + r) = '[') := char_ne_of_toNat (by
            have hl : ('[' : Char).toNat = 91 := rfl
            omega)
          have hcl : ¬(Char.ofNat (48 + r) = lbraceChar) := char_ne_of_toNat (by
            have hl : lbraceChar.toNat = 123 := rfl
            omega)
          have hp := parseNat_natDigits n.toNat hR
          rw [natDigits_eq hz, he, List.cons_append] at hp
          have hval : ((n.toNat : Int)) = n := Int.toNat_of_nonneg (by omega)
          simp only [jchars, intChars, if_neg hneg, natDigits_eq hz, he, List.cons_append]
          rw [parseJSONValue_step_digit fuel _ _ hcn hct hcf hcq hcm hcb hcl, hp]
          simp [hval]
    | arr xs =>
      cases xs with
      | nil => rfl
      | cons x ys =>
        simp only [noUndef, noUndefItems, Bool.and_eq_true] at hU
        obtain ⟨hUx, hUys⟩ := hU
        simp only [jweight, jweightItems] at hW
        have hWx : jweight x ≤ fuel := by omega
        have hWys : jweightItems ys + 1 ≤ fuel := by omega
        obtain ⟨c2, t2, he2, hws2, hbr2⟩ := jchars_head_spec x
        have hsepA := arrSep_skip_noDigit ys rest
        have hx := parse_jchars x fuel (arrSep ys ++ rest) hUx hWx hsepA.2
        have hskip := skipWs_jchars x (arrSep ys ++ rest)
        rw [he2, List.cons_append] at hx hskip
        have hys := parse_arrSep ys fuel [x] rest hUys hWys hR
        simp only [jchars, arrBody, List.cons_append, List.append_assoc, he2]
        rw [parseJSONValue_step_bracket, hskip]
        simp only [if_neg hbr2, hx]
        rw [hsepA.1, hys]
        simp
    | obj fs =>
      cases fs with
      | nil => rfl
      | cons f gs =>
        obtain ⟨k, v⟩ := f
        simp only [noUndef, noUndefFields, Bool.and_eq_true] at hU
        obtain ⟨hUv, hUgs⟩ := hU
        simp only [jweight, jweightFields] at hW
        have hWv : jweight v ≤ fuel := by omega
        have hWgs : jweightFields gs + 1 ≤ fuel := by omega
        have hundef : v.isUndef = false := noUndef_isUndef hUv
        have hsepO := objSep_skip_noDigit gs rest
        have hq := parseStringBody_quote k.data (':' :: (jchars v ++ (objSep gs ++ rest)))
        have hv := parse_jchars v fuel (objSep gs ++ rest) hUv hWv hsepO.2
        have hgs := parse_objSep gs fuel [(k, v)] rest hUgs hWgs hR
        simp only [jchars, objBody, hundef, Bool.false_eq_true, if_false, quoteChars,
          List.cons_append, List.append_assoc, List.singleton_append]
        rw [parseJSONValue_step_lbrace,
          skipWs_not_ws _ (show isWsChar '"' = false from rfl)]
        simp only [show ¬('"' = rbraceChar) from by decide, if_neg, if_false,
          if_pos rfl, if_true, reduceIte, List.nil_append]
        rw [hq]
        simp only [string_mk_data, List.singleton_append]
        rw [skipWs_not_ws _ (show isWsChar ':' = false from rfl)]
        simp only [skipWs_jchars, hv]
        rw [hsepO.1, hgs]
        simp

/-- After the first element, the parser reads back the remaining printed
elements and the closing bracket, extending the accumulator. -/
theorem parse_arrSep (xs : List JSVal) (fuel : Nat) (acc : List JSVal) (rest : List Char)
    (hU : noUndefItems xs = true) (hW : jweightItems xs + 1 ≤ fuel)
    (hR : noDigitHead rest = true) :
    parseArrayRest fuel acc (arrSep xs ++ rest) = some (.arr (acc ++ xs), rest) := by
  cases fuel with
  | zero => exact absurd hW (by omega)
  | succ fuel =>
    cases xs with
    | nil =>
      rw [show arrSep [] = [']'] from rfl, List.cons_append, List.nil_append,
        parseArrayRest_close]
      simp
    | cons y ys =>
      simp only [noUndefItems, Bool.and_eq_true] at hU
      obtain ⟨hUy, hUys⟩ := hU
      simp only [jweightItems] at hW
      have hWy : jweight y ≤ fuel := by omega
      have hWys : jweightItems ys + 1 ≤ fuel := by omega
      have hsepA := arrSep_skip_noDigit ys rest
      have hy := parse_jchars y fuel (arrSep ys ++ rest) hUy hWy hsepA.2
      have hys := parse_arrSep ys fuel (acc ++ [y]) rest hUys hWys hR
      simp only [arrSep, List.cons_append, List.append_assoc]
      rw [parseArrayRest_comma, skipWs_jchars y (arrSep ys ++ rest), hy]
      simp only []
      rw [hsepA.1, hys]
      simp

/-- After the first field, the parser reads back the remaining printed
fields and the closing brace, extending the accumulator. -/
theorem parse_objSep (fs : List (String × JSVal)) (fuel : Nat)
    (acc : List (String × JSVal)) (rest : List Char)
    (hU : noUndefFields fs = true) (hW : jweightFields fs + 1 ≤ fuel)
    (hR : noDigitHead rest = true) :
    parseObjRest fuel acc (objSep fs ++ rest) = some (.obj (acc ++ fs), rest) := by
  cases fuel with
  | zero => exact absurd hW (by omega)
  | succ fuel =>
    cases fs with
    | nil =>
      rw [show objSep [] = [rbraceChar] from rfl, List.cons_append, List.nil_append,
        parseObjRest_close]
      simp
    | cons f gs =>
      obtain ⟨k, v⟩ := f
      simp only [noUndefFields, Bool.and_eq_true] at hU
      obtain ⟨hUv, hUgs⟩ := hU
      simp only [jweightFields] at hW
      have hWv : jweight v ≤ fuel := by omega
      have hWgs : jweightFields gs + 1 ≤ fuel := by omega
      have hundef : v.isUndef = false := noUndef_isUndef hUv
      have hsepO := objSep_skip_noDigit gs rest
      have hq := parseStringBody_quote k.data (':' :: (jchars v ++ (objSep gs ++ rest)))
      have hv := parse_jchars v fuel (objSep gs ++ rest) hUv hWv hsepO.2
      have hgs := parse_objSep gs fuel (acc ++ [(k, v)]) rest hUgs hWgs hR
      simp only [objSep, hundef, Bool.false_eq_true, if_false, quoteChars,
        List.cons_append, List.append_assoc, List.singleton_append]
      rw [parseObjRest_comma,
        skipWs_not_ws _ (show isWsChar '"' = false from rfl)]
      simp only [List.nil_append]
      rw [hq]
      simp only [string_mk_data, List.singleton_append]
      rw [skipWs_not_ws _ (show isWsChar ':' = false from rfl)]
      simp only [skipWs_jchars, hv]
      rw [hsepO.1, hgs]
      simp
end

mutual
/-- The budget needed to parse a printed value is covered by its length. -/
theorem jweight_le_len (v : JSVal) (hU : noUndef v = true) :
    jweight v ≤ (jchars v).length := by
  cases v with
  | null => simp [jweight, jchars]
  | undef => exact absurd hU (by simp [noUndef])
  | bool b => cases b <;> simp [jweight, jchars]
  | num n =>
    have h1 : 1 ≤ (intChars n).length := by
      rw [intChars]
      by_cases hneg : n < 0
      · simp [if_pos hneg]
      · rw [if_neg hneg, natDigits]
        by_cases hz : n.toNat = 0
        · rw [if_pos hz]
          simp
        · rw [if_neg hz]
          obtain ⟨r, t, -, -, he⟩ := digitsRep_head n.toNat hz
          rw [natDigitsFuel_eq _ _ _ (Nat.le_refl _), List.append_nil, he]
          simp
    simpa [jweight, jchars] using h1
  | str s => simp [jweight, jchars, quoteChars]
  | arr xs =>
    have h := jweightItems_le_len xs hU
    simp only [jweight, jchars, List.length_cons]
    omega
  | obj fs =>
    have h := jweightFields_le_len fs hU
    simp only [jweight, jchars, List.length_cons]
    omega

/-- The budget needed for array elements is covered by the printed length. -/
theorem jweightItems_le_len (xs : List JSVal) (hU : noUndefItems xs = true) :
    jweightItems xs ≤ (arrBody xs).length ∧ jweightItems xs + 1 ≤ (arrSep xs).length := by
  cases xs with
  | nil => simp [jweightItems, arrBody, arrSep]
  | cons x ys =>
    simp only [noUndefItems, Bool.and_eq_true] at hU
    have hx := jweight_le_len x hU.1
    have hys := jweightItems_le_len ys hU.2
    simp only [jweightItems, arrBody, arrSep, List.length_append, List.length_cons]
    omega

/-- The budget needed for object fields is covered by the printed length. -/
theorem jweightFields_le_len (fs : List (String × JSVal)) (hU : noUndefFields fs = true) :
    jweightFields fs ≤ (objBody fs).length ∧ jweightFields fs + 1 ≤ (objSep fs).length := by
  cases fs with
  | nil => simp [jweightFields, objBody, objSep]
  | cons f gs =>
    obtain ⟨k, v⟩ := f
    simp only [noUndefFields, Bool.and_eq_true] at hU
    have hv := jweight_le_len v hU.1
    have hgs := jweightFields_le_len gs hU.2
    have hundef : v.isUndef = false := noUndef_isUndef hU.1
    simp only [jweightFields, objBody, objSep, hundef, Bool.false_eq_true, if_false,
      List.length_append, List.length_cons, quoteChars]
    omega
end

/-- Parsing inverts printing outright: `JSON.parse(JSON.stringify(v))`
recovers any `undefined`-free value. -/
theorem jsonParse_stringify (v : JSVal) (hU : noUndef v = true) :
    jsonParse (jsonStringify v) = some v := by
  have hlen : (jsonStringify v).length = (jchars v).length := rfl
  have hdata : (jsonStringify v).data = jchars v := rfl
  have hfuel : jweight v ≤ (jchars v).length + 1 := by
    have := jweight_le_len v hU
    omega
  have hmain := parse_jchars v ((jchars v).length + 1) [] hU hfuel rfl
  rw [List.append_nil] at hmain
  have hskip : skipWs (jchars v) = jchars v := by
    have := skipWs_jchars v []
    simpa using this
  rw [jsonParse, hlen, hdata, hskip, hmain]
  rfl

/-! ## C4: the cell codec round trip -/

/-- C4 counterexample: the codec does not round-trip every
JSON-representable value: the number `0` is sanitized to `""` by insert
and read back as the empty string, and the string `"123"`, passed through
unchanged by encode, is read back as the number `123`. -/
theorem codec_roundtrip_counterexample :
    decodeEncode (.num 0) = .str "" ∧ JSVal.str "" ≠ .num 0
    ∧ decodeEncode (.str "123") = .num 123 ∧ JSVal.num 123 ≠ .str "123" :=
  ⟨rfl, fun h => JSVal.noConfusion h, rfl, fun h => JSVal.noConfusion h⟩

/-- C4 (amended): `decode(encode(v)) = v` for every truthy object-typed
value (arrays and plain objects) free of `undefined` — those are
JSON-serialized on insert and parsed back to an equal value on retrieval —
and every string that is not valid JSON is returned by `decode` unchanged,
without raising; falsy values collapse to `""` and strings that are valid
JSON are re-parsed instead of returned verbatim. -/
theorem codec_roundtrip_amended :
    (∀ v : JSVal, noUndef v = true → (v.truthy && v.isObjectType) = true →
      decodeEncode v = v)
    ∧ (∀ s : String, jsonParse s = none →
        getParsedValue s = .str s ∧ decodeEncode (.str s) = .str s) := by
  constructor
  · intro v hU hobj
    have hne : jsonStringify v ≠ "" := by
      cases v with
      | arr xs =>
        intro h
        have h2 := congrArg String.data h
        simp [jsonStringify, jchars] at h2
      | obj fs =>
        intro h
        have h2 := congrArg String.data h
        simp [jsonStringify, jchars] at h2
      | _ => simp_all [JSVal.truthy, JSVal.isObjectType]
    have hst : sanitizeValue v = .str (jsonStringify v) := by
      rw [sanitizeValue]
      simp only [hobj, if_true, reduceIte]
      have htr : (JSVal.str (jsonStringify v)).truthy = true := by
        simp [JSVal.truthy, hne]
      simp only [htr, if_true, reduceIte]
    rw [decodeEncode, hst]
    show getParsedValue (jsonStringify v) = v
    rw [getParsedValue, jsonParse_stringify v hU]
  · intro s hs
    have h1 : getParsedValue s = .str s := by
      rw [getParsedValue, hs]
    refine ⟨h1, ?_⟩
    by_cases hse : s = ""
    · subst hse
      rfl
    · have hfalse : ((JSVal.str s).truthy && (JSVal.str s).isObjectType) = false := by
        simp [JSVal.isObjectType]
      have htr : (JSVal.str s).truthy = true := by
        simp [JSVal.truthy, hse]
      have hst : sanitizeValue (.str s) = .str s := by
        have hcond : ¬(((JSVal.str s).truthy && (JSVal.str s).isObjectType) = true) := by
          rw [hfalse]
          exact Bool.false_ne_true
        rw [sanitizeValue, if_neg hcond, if_pos htr]
      rw [decodeEncode, hst]
      exact h1

/-- Witness for `codec_roundtrip_amended`: the object `{a: 1}` survives
the codec round trip, and the non-JSON string `"hello"` is returned
unchanged. -/
theorem codec_roundtrip_amended_witness :
    noUndef (JSVal.obj [("a", .num 1)]) = true
    ∧ ((JSVal.obj [("a", .num 1)]).truthy && (JSVal.obj [("a", .num 1)]).isObjectType) = true
    ∧ decodeEncode (.obj [("a", .num 1)]) = .obj [("a", .num 1)]
    ∧ jsonParse "hello" = none
    ∧ getParsedValue "hello" = .str "hello" :=
  ⟨rfl, rfl, codec_roundtrip_amended.1 (.obj [("a", .num 1)]) rfl rfl, rfl,
    (codec_roundtrip_amended.2 "hello" rfl).1⟩
